import Mathlib

/-!
Verification development for the chit-fund calculator core
(src/src/ChitFundApp.tsx): the month-by-month schedule simulator
`calculateChitDetails` and the IRR root-finder `calculateIRR`.

Modelling conventions
- JavaScript numbers are modelled by `JsNum`: exact rationals extended with
  `posInf`, `negInf` and `nan`, with the IEEE-754 extended-real rules for
  arithmetic (x/0 yields an infinity or NaN, infinities saturate, NaN
  propagates, comparisons with NaN are false).  Finite arithmetic is exact:
  double rounding error is out of scope, as is the distinction between 0 and
  negative zero, which is observationally irrelevant to the claims at hand.
- The simulator loop `for (let i = 0; i < duration && remainingMembers > 0; i++)`
  is translated as a fuel recursion with fuel = duration - i; the source also
  breaks immediately after the month record is pushed when
  remainingMembers === 0, which coincides with the loop condition failing at
  the next check, so a single condition is used.
- Math.round is floor (x + 1/2), matching JavaScript for finite arguments.
-/

inductive JsNum where
  | nan : JsNum
  | posInf : JsNum
  | negInf : JsNum
  | fin : ℚ → JsNum
deriving DecidableEq, Repr

namespace JsNum

def jneg : JsNum → JsNum
  | nan => nan
  | posInf => negInf
  | negInf => posInf
  | fin a => fin (-a)

def jadd : JsNum → JsNum → JsNum
  | nan, _ => nan
  | _, nan => nan
  | posInf, negInf => nan
  | negInf, posInf => nan
  | posInf, _ => posInf
  | _, posInf => posInf
  | negInf, _ => negInf
  | _, negInf => negInf
  | fin a, fin b => fin (a + b)

/-- JavaScript subtraction is addition of the negation. -/
def jsub (a b : JsNum) : JsNum := jadd a (jneg b)

def jmul : JsNum → JsNum → JsNum
  | nan, _ => nan
  | _, nan => nan
  | posInf, posInf => posInf
  | posInf, negInf => negInf
  | negInf, posInf => negInf
  | negInf, negInf => posInf
  | posInf, fin b => if b = 0 then nan else if 0 < b then posInf else negInf
  | fin a, posInf => if a = 0 then nan else if 0 < a then posInf else negInf
  | negInf, fin b => if b = 0 then nan else if 0 < b then negInf else posInf
  | fin a, negInf => if a = 0 then nan else if 0 < a then negInf else posInf
  | fin a, fin b => fin (a * b)

/-- JavaScript division on the extended reals; a zero divisor produces a
signed infinity (or NaN for 0/0), matching the source of the only division
in the simulator loop that can receive a zero divisor. -/
def jdiv : JsNum → JsNum → JsNum
  | nan, _ => nan
  | _, nan => nan
  | posInf, posInf => nan
  | posInf, negInf => nan
  | negInf, posInf => nan
  | negInf, negInf => nan
  | posInf, fin b => if 0 ≤ b then posInf else negInf
  | negInf, fin b => if 0 ≤ b then negInf else posInf
  | fin _, posInf => fin 0
  | fin _, negInf => fin 0
  | fin a, fin b =>
      if b = 0 then (if a = 0 then nan else if 0 < a then posInf else negInf)
      else fin (a / b)

/-- Math.floor. -/
def jfloor : JsNum → JsNum
  | nan => nan
  | posInf => posInf
  | negInf => negInf
  | fin a => fin (⌊a⌋ : ℤ)

/-- Math.round: floor (x + 1/2) for finite x. -/
def jround : JsNum → JsNum
  | nan => nan
  | posInf => posInf
  | negInf => negInf
  | fin a => fin (⌊a + 1/2⌋ : ℤ)

/-- Math.abs. -/
def jabs : JsNum → JsNum
  | nan => nan
  | posInf => posInf
  | negInf => posInf
  | fin a => fin |a|

/-- Math.min: NaN-propagating minimum. -/
def jmin : JsNum → JsNum → JsNum
  | nan, _ => nan
  | _, nan => nan
  | negInf, _ => negInf
  | _, negInf => negInf
  | posInf, b => b
  | a, posInf => a
  | fin a, fin b => fin (min a b)

/-- JavaScript strict less-than as a boolean; false whenever NaN is involved. -/
def jlt : JsNum → JsNum → Bool
  | nan, _ => false
  | _, nan => false
  | negInf, negInf => false
  | negInf, _ => true
  | _, negInf => false
  | posInf, _ => false
  | fin _, posInf => true
  | fin a, fin b => decide (a < b)

/-- JavaScript less-or-equal as a boolean; false whenever NaN is involved. -/
def jle : JsNum → JsNum → Bool
  | nan, _ => false
  | _, nan => false
  | negInf, _ => true
  | _, negInf => false
  | _, posInf => true
  | posInf, _ => false
  | fin a, fin b => decide (a ≤ b)

/-- Math.pow with a natural exponent (the only form the source uses).
Math.pow(x, 0) is 1 for every x, including NaN and the infinities. -/
def jpow (a : JsNum) : ℕ → JsNum
  | 0 => fin 1
  | n + 1 =>
    match a with
    | nan => nan
    | posInf => posInf
    | negInf => if (n + 1) % 2 = 0 then posInf else negInf
    | fin q => fin (q ^ (n + 1))

def isFin : JsNum → Prop
  | fin _ => True
  | _ => False

end JsNum

open JsNum

/-! ## Data model of the simulator (src/src/ChitFundApp.tsx)

`CalcInputs` mirrors the `calcInputs` form state consumed by
`calculateChitDetails`; `totalMembers` is the integral member count, the
remaining amounts are finite numbers.  The commission type `monthly`
corresponds to the spec name PerPeriodRate and `oneTime` to FixedTotal. -/

inductive CommissionType where
  | monthly : CommissionType
  | oneTime : CommissionType
deriving DecidableEq, Repr

structure CalcInputs where
  totalMembers : ℤ
  monthlyContribution : ℚ
  firstWithdrawal : ℚ
  /-- present in the form state; unused by the calculation -/
  finalWithdrawal : ℚ
  monthlyIncrement : ℚ
  commissionType : CommissionType
  commissionRate : ℚ
  oneTimeCommission : ℚ
  loanInterestRate : ℚ
deriving DecidableEq, Repr

structure MonthRecord where
  month : ℕ
  withdrawalAmount : JsNum
  contributionPerMember : JsNum
  newContributions : JsNum
  carryOverFromPrevious : JsNum
  availablePool : JsNum
  actualWithdrawals : JsNum
  totalWithdrawn : JsNum
  remainingPool : JsNum
  remainingMembersAfter : JsNum
  isLastMonth : Bool
deriving DecidableEq, Repr

structure LoanRecord where
  month : ℕ
  availableForLoan : JsNum
  loanAmount : JsNum
  interestRate : ℚ
  interestEarned : JsNum
  repaymentDue : JsNum
deriving DecidableEq, Repr

structure MemberReturn where
  member : ℕ
  withdrawalMonth : ℕ
  totalContribution : JsNum
  withdrawal : JsNum
  netReturn : JsNum
  returnPercent : JsNum
  monthlyIRR : Option JsNum
  annualizedIRR : Option JsNum
deriving DecidableEq, Repr

structure ChitResult where
  duration : ℕ
  totalPool : JsNum
  commissionPerMonth : JsNum
  totalCommission : JsNum
  netPoolPerMonth : JsNum
  withdrawalSchedule : List MonthRecord
  totalMembersServed : JsNum
  finalCarryOver : JsNum
  loanDetails : List LoanRecord
  totalLoanAmount : JsNum
  totalInterestEarned : JsNum
  memberReturns : List MemberReturn
deriving DecidableEq, Repr

/-- Running state of the schedule loop: the loop counter and the mutable
variables of `calculateChitDetails` (remainingMembers, carryOverPool,
loanRepaymentDue, the two record arrays and the loan totals). -/
structure SimState where
  i : ℕ
  remainingMembers : JsNum
  carryOverPool : JsNum
  loanRepaymentDue : JsNum
  schedule : List MonthRecord
  loans : List LoanRecord
  totalLoanAmount : JsNum
  totalInterestEarned : JsNum
deriving DecidableEq, Repr

/-- The unrounded intermediate values of one iteration of the schedule loop,
exactly as the source computes them before any Math.round is applied. -/
structure MonthCalc where
  withdrawalAmount : JsNum
  effectiveCarryOver : JsNum
  contributionPerMember : JsNum
  currentMonthContribution : JsNum
  availablePool : JsNum
  isLastMonth : Bool
  actualWithdrawals : JsNum
  totalWithdrawn : JsNum
  remainingPool : JsNum
  issueLoan : Bool
  loanAmount : JsNum
  interestEarned : JsNum
  nextMonthRepayment : JsNum
deriving DecidableEq, Repr

/-- One iteration body of the schedule loop, lines 311-364 of the source.
The contribution / pool variables are reassigned in the last-month branch of
the source; here each final value is selected by the same conditions. -/
def monthCalc (P : CalcInputs) (loanUtilization commissionPerMonth netPoolPerMonth : ℚ)
    (i : ℕ) (remainingMembers carryOverPool loanRepaymentDue : JsNum) : MonthCalc :=
  let withdrawalAmount := fin (P.firstWithdrawal + P.monthlyIncrement * (i : ℚ))
  let effectiveCarryOver := jadd carryOverPool loanRepaymentDue
  let totalRequired := jmul remainingMembers withdrawalAmount
  let basePool := jadd (fin netPoolPerMonth) effectiveCarryOver
  let isLastMonth := jlt totalRequired basePool
  let requiredNet := jsub totalRequired effectiveCarryOver
  let contributionPerMember :=
    if isLastMonth then
      if jle requiredNet (fin 0) then fin 0
      else jdiv (jadd requiredNet (fin commissionPerMonth)) (fin (P.totalMembers : ℚ))
    else fin P.monthlyContribution
  let currentMonthContribution :=
    if isLastMonth then
      if jle requiredNet (fin 0) then fin 0
      else jsub (jmul contributionPerMember (fin (P.totalMembers : ℚ))) (fin commissionPerMonth)
    else fin netPoolPerMonth
  let availablePool :=
    if isLastMonth then
      if jle requiredNet (fin 0) then effectiveCarryOver
      else jadd currentMonthContribution effectiveCarryOver
    else basePool
  let maxWithdrawalsBasedOnPool := jfloor (jdiv availablePool withdrawalAmount)
  let actualWithdrawals := jmin maxWithdrawalsBasedOnPool remainingMembers
  let totalWithdrawn := jmul withdrawalAmount actualWithdrawals
  let remainingPool := jsub availablePool totalWithdrawn
  let issueLoan := (!isLastMonth) && jlt (fin 0) remainingPool
  let loanAmount := if issueLoan then jdiv (jmul remainingPool (fin loanUtilization)) (fin 100) else fin 0
  let interestEarned := if issueLoan then jdiv (jmul loanAmount (fin P.loanInterestRate)) (fin 100) else fin 0
  let nextMonthRepayment := if issueLoan then jadd loanAmount interestEarned else fin 0
  { withdrawalAmount := withdrawalAmount
    effectiveCarryOver := effectiveCarryOver
    contributionPerMember := contributionPerMember
    currentMonthContribution := currentMonthContribution
    availablePool := availablePool
    isLastMonth := isLastMonth
    actualWithdrawals := actualWithdrawals
    totalWithdrawn := totalWithdrawn
    remainingPool := remainingPool
    issueLoan := issueLoan
    loanAmount := loanAmount
    interestEarned := interestEarned
    nextMonthRepayment := nextMonthRepayment }

/-- One full iteration: compute the month, update the mutable state, push the
(rounded) month record and, when a loan is issued, the (rounded) loan record.
The internal state update uses the unrounded values. -/
def simStep (P : CalcInputs) (loanUtilization commissionPerMonth netPoolPerMonth : ℚ)
    (st : SimState) : SimState :=
  let mc := monthCalc P loanUtilization commissionPerMonth netPoolPerMonth
    st.i st.remainingMembers st.carryOverPool st.loanRepaymentDue
  let newRemaining := jsub st.remainingMembers mc.actualWithdrawals
  { i := st.i + 1
    remainingMembers := newRemaining
    carryOverPool := jsub mc.remainingPool mc.loanAmount
    loanRepaymentDue := mc.nextMonthRepayment
    schedule := st.schedule ++ [{
      month := st.i + 1
      withdrawalAmount := jround mc.withdrawalAmount
      contributionPerMember := jround mc.contributionPerMember
      newContributions := jround mc.currentMonthContribution
      carryOverFromPrevious := jround mc.effectiveCarryOver
      availablePool := jround mc.availablePool
      actualWithdrawals := mc.actualWithdrawals
      totalWithdrawn := jround mc.totalWithdrawn
      remainingPool := jround mc.remainingPool
      remainingMembersAfter := newRemaining
      isLastMonth := mc.isLastMonth }]
    loans :=
      if mc.issueLoan then st.loans ++ [{
        month := st.i + 1
        availableForLoan := jround mc.remainingPool
        loanAmount := jround mc.loanAmount
        interestRate := P.loanInterestRate
        interestEarned := jround mc.interestEarned
        repaymentDue := jround mc.nextMonthRepayment }]
      else st.loans
    totalLoanAmount :=
      if mc.issueLoan then jadd st.totalLoanAmount mc.loanAmount else st.totalLoanAmount
    totalInterestEarned :=
      if mc.issueLoan then jadd st.totalInterestEarned mc.interestEarned else st.totalInterestEarned }

/-- The schedule loop with fuel = duration - i; the loop also stops as soon as
remainingMembers > 0 fails (which subsumes the source's break on
remainingMembers === 0 immediately after the push). -/
def simRun (P : CalcInputs) (loanUtilization commissionPerMonth netPoolPerMonth : ℚ) :
    ℕ → SimState → SimState
  | 0, st => st
  | fuel + 1, st =>
      if jlt (fin 0) st.remainingMembers then
        simRun P loanUtilization commissionPerMonth netPoolPerMonth fuel
          (simStep P loanUtilization commissionPerMonth netPoolPerMonth st)
      else st

/-! ## IRR solver (calculateIRR, source lines 20-85) -/

/-- Default tolerance of calculateIRR (1e-7). -/
def tolerance : ℚ := 1/10000000

/-- Default maxIterations of calculateIRR. -/
def maxIterations : ℕ := 100

/-- The NPV accumulation loop of the bisection phase:
npv += cashFlows[t] / Math.pow(1 + rate, t). -/
def npvGo (rate : JsNum) : List JsNum → ℕ → JsNum → JsNum
  | [], _, npv => npv
  | c :: cs, t, npv =>
      npvGo rate cs (t + 1) (jadd npv (jdiv c (jpow (jadd (fin 1) rate) t)))

/-- The joint NPV / derivative accumulation loop of the Newton-Raphson phase:
npv += cashFlows[t] / (1+rate)^t and dnpv -= t * cashFlows[t] / (1+rate)^(t+1). -/
def irrGo (rate : JsNum) : List JsNum → ℕ → JsNum × JsNum → JsNum × JsNum
  | [], _, acc => acc
  | c :: cs, t, acc =>
      irrGo rate cs (t + 1)
        (jadd acc.1 (jdiv c (jpow (jadd (fin 1) rate) t)),
         jsub acc.2 (jdiv (jmul (fin (t : ℚ)) c) (jpow (jadd (fin 1) rate) (t + 1))))

/-- The Newton-Raphson loop: converged when |npv| < tolerance; a near-zero
derivative breaks out (falling through to bisection, returned as none);
otherwise the candidate rate is clamped to -0.5 below -0.99 and to 1
above 10. -/
def newtonPhase (cashFlows : List JsNum) : ℕ → JsNum → Option JsNum
  | 0, _ => none
  | k + 1, rate =>
      let nd := irrGo rate cashFlows 0 (fin 0, fin 0)
      if jlt (jabs nd.1) (fin tolerance) then some rate
      else if jlt (jabs nd.2) (fin tolerance) then none
      else
        let newRate := jsub rate (jdiv nd.1 nd.2)
        let nextRate :=
          if jlt newRate (fin (-99/100)) then fin (-1/2)
          else if jlt (fin 10) newRate then fin 1
          else newRate
        newtonPhase cashFlows k nextRate

/-- The bisection fallback over [-0.99, 10]: return mid when |npv(mid)| <
tolerance, move low up when npv(low) and npv(mid) share a sign, otherwise
move high down. -/
def bisectPhase (cashFlows : List JsNum) : ℕ → JsNum → JsNum → Option JsNum
  | 0, _, _ => none
  | k + 1, low, high =>
      let mid := jdiv (jadd low high) (fin 2)
      let npvMid := npvGo mid cashFlows 0 (fin 0)
      if jlt (jabs npvMid) (fin tolerance) then some mid
      else
        let npvLow := npvGo low cashFlows 0 (fin 0)
        if jlt (fin 0) (jmul npvLow npvMid) then bisectPhase cashFlows k mid high
        else bisectPhase cashFlows k low mid

/-- calculateIRR: Newton-Raphson from the initial guess 0.01, falling back to
bisection; none models the null return (non-convergence). -/
def calculateIRR (cashFlows : List JsNum) : Option JsNum :=
  match newtonPhase cashFlows maxIterations (fin (1/100)) with
  | some r => some r
  | none => bisectPhase cashFlows maxIterations (fin (-99/100)) (fin 10)

/-! ## Member returns (source lines 387-448) -/

/-- Number of iterations of the source loop
for (let i = 0; i < bound; i++) for a JsNum bound: the ceiling clamped to
zero for a finite bound, zero for NaN and -Infinity.  (A +Infinity bound
would make the source loop forever; no claim depends on that case and the
model produces no entries for it.) -/
def jsIterCount : JsNum → ℕ
  | fin q => Int.toNat ⌈q⌉
  | _ => 0

/-- The per-member cash-flow sequence: one entry per month record in schedule
order; the member's own withdrawal month receives withdrawal minus that
month's contribution, every other month minus the contribution (all taken
from the rounded record fields, as in the source). -/
def cashFlowsFor (sched : List MonthRecord) (s : MonthRecord) : List JsNum :=
  sched.enum.map (fun p =>
    let contribution := jneg p.2.contributionPerMember
    if p.1 + 1 = s.month then jadd s.withdrawalAmount contribution else contribution)

/-- One MemberReturn entry for a member withdrawing in month record s. -/
def memberEntry (total : JsNum) (sched : List MonthRecord) (s : MonthRecord)
    (memberNumber : ℕ) : MemberReturn :=
  let netReturn := jsub s.withdrawalAmount total
  let returnPercent := jmul (jdiv netReturn total) (fin 100)
  let monthlyIRR := calculateIRR (cashFlowsFor sched s)
  { member := memberNumber
    withdrawalMonth := s.month
    totalContribution := jround total
    withdrawal := s.withdrawalAmount
    netReturn := jround netReturn
    returnPercent := returnPercent
    monthlyIRR := monthlyIRR.map (fun r => jmul r (fin 100))
    annualizedIRR := monthlyIRR.map (fun r =>
      jmul (jsub (jpow (jadd (fin 1) r) 12) (fin 1)) (fin 100)) }

/-- The member-returns pass: totalContributionForAllMembers is the sum of the
(rounded) per-member contributions over every month record; each month record
contributes actualWithdrawals members, numbered sequentially in encounter
order. -/
def memberReturnsOf (sched : List MonthRecord) : List MemberReturn :=
  let total := (sched.map (·.contributionPerMember)).foldl jadd (fin 0)
  ((sched.flatMap (fun s => List.replicate (jsIterCount s.actualWithdrawals) s)).enum).map
    (fun p => memberEntry total sched p.2 (p.1 + 1))

/-! ## calculateChitDetails (source lines 265-464) -/

/-- Math.round on a rational. -/
def roundQ (q : ℚ) : ℚ := (⌊q + 1/2⌋ : ℤ)

/-- The all-zero result of the totalMembers ≤ 0 early return. -/
def emptyResult : ChitResult :=
  { duration := 0
    totalPool := fin 0
    commissionPerMonth := fin 0
    totalCommission := fin 0
    netPoolPerMonth := fin 0
    withdrawalSchedule := []
    totalMembersServed := fin 0
    finalCarryOver := fin 0
    loanDetails := []
    totalLoanAmount := fin 0
    totalInterestEarned := fin 0
    memberReturns := [] }

/-- Placeholder month record used as the getLast default; whenever
totalMembers > 0 the loop runs at least once so the schedule is nonempty and
this default is never read (an empty schedule would make the source throw on
withdrawalSchedule[length - 1]). -/
def defaultMonthRecord : MonthRecord :=
  { month := 0, withdrawalAmount := fin 0, contributionPerMember := fin 0
    newContributions := fin 0, carryOverFromPrevious := fin 0, availablePool := fin 0
    actualWithdrawals := fin 0, totalWithdrawn := fin 0, remainingPool := fin 0
    remainingMembersAfter := fin 0, isLastMonth := false }

/-- The commission per month before rounding: totalPool * rate / 100 for the
monthly type, oneTimeCommission / duration for the one-time type (duration is
totalMembers at this point in the source). -/
def commissionPerMonthQ (P : CalcInputs) : ℚ :=
  match P.commissionType with
  | CommissionType.monthly => (P.totalMembers : ℚ) * P.monthlyContribution * P.commissionRate / 100
  | CommissionType.oneTime => P.oneTimeCommission / (P.totalMembers : ℚ)

/-- The total commission before rounding. -/
def totalCommissionQ (P : CalcInputs) : ℚ :=
  match P.commissionType with
  | CommissionType.monthly => commissionPerMonthQ P * (P.totalMembers : ℚ)
  | CommissionType.oneTime => P.oneTimeCommission

/-- The net pool per month (not rounded anywhere in the source). -/
def netPoolPerMonthQ (P : CalcInputs) : ℚ :=
  (P.totalMembers : ℚ) * P.monthlyContribution - commissionPerMonthQ P

/-- The initial loop state. -/
def initState (P : CalcInputs) : SimState :=
  { i := 0, remainingMembers := fin (P.totalMembers : ℚ), carryOverPool := fin 0
    loanRepaymentDue := fin 0, schedule := [], loans := []
    totalLoanAmount := fin 0, totalInterestEarned := fin 0 }

/-- calculateChitDetails: the degenerate guard, the commission model, the
schedule loop and the member-returns pass, assembled exactly as the source
returns them (rounding only the reported copies). -/
def calculateChitDetails (P : CalcInputs) (loanUtilization : ℚ) : ChitResult :=
  if P.totalMembers ≤ 0 then emptyResult
  else
    let commissionPerMonth := commissionPerMonthQ P
    let netPoolPerMonth := netPoolPerMonthQ P
    let final := simRun P loanUtilization commissionPerMonth netPoolPerMonth
      P.totalMembers.toNat (initState P)
    let lastRecord := final.schedule.getLastD defaultMonthRecord
    { duration := final.schedule.length
      totalPool := fin ((P.totalMembers : ℚ) * P.monthlyContribution)
      commissionPerMonth := fin (roundQ commissionPerMonth)
      totalCommission := fin (roundQ (totalCommissionQ P))
      netPoolPerMonth := fin netPoolPerMonth
      withdrawalSchedule := final.schedule
      totalMembersServed := jsub (fin (P.totalMembers : ℚ)) lastRecord.remainingMembersAfter
      finalCarryOver := lastRecord.remainingPool
      loanDetails := final.loans
      totalLoanAmount := jround final.totalLoanAmount
      totalInterestEarned := jround final.totalInterestEarned
      memberReturns := memberReturnsOf final.schedule }

/-! ## Proof-side mirrors

Rational-valued restatements of the loops above, used to reason about runs
in which every value is finite.  They are related to the JsNum-level
definitions by the lemmas monthCalc_fin, npvGo_fin and irrGo_fin below, which
hold whenever the divisors involved are nonzero. -/

/-- The rational value of one loop iteration when the whole state is finite
and the divisors (withdrawalAmount and totalMembers) are nonzero. -/
def monthCalcQ (P : CalcInputs) (loanUtilization commissionPerMonth netPoolPerMonth : ℚ)
    (i : ℕ) (k cq rq : ℚ) : MonthCalc :=
  let w := P.firstWithdrawal + P.monthlyIncrement * (i : ℚ)
  let eco := cq + rq
  let totalRequired := k * w
  let basePool := netPoolPerMonth + eco
  let isLast : Bool := decide (totalRequired < basePool)
  let requiredNet := totalRequired - eco
  let rnNonpos : Bool := decide (requiredNet ≤ 0)
  let cpm : ℚ :=
    if isLast then
      (if rnNonpos then 0 else (requiredNet + commissionPerMonth) / (P.totalMembers : ℚ))
    else P.monthlyContribution
  let cur : ℚ :=
    if isLast then
      (if rnNonpos then 0 else cpm * (P.totalMembers : ℚ) - commissionPerMonth)
    else netPoolPerMonth
  let pool : ℚ :=
    if isLast then (if rnNonpos then eco else cur + eco) else basePool
  let a : ℚ := min ((⌊pool / w⌋ : ℤ) : ℚ) k
  let totalWithdrawn := w * a
  let remainingPool := pool - totalWithdrawn
  let issueLoan : Bool := !isLast && decide (0 < remainingPool)
  let loanAmount : ℚ := if issueLoan then remainingPool * loanUtilization / 100 else 0
  let interestEarned : ℚ := if issueLoan then loanAmount * P.loanInterestRate / 100 else 0
  let nextMonthRepayment : ℚ := if issueLoan then loanAmount + interestEarned else 0
  { withdrawalAmount := fin w
    effectiveCarryOver := fin eco
    contributionPerMember := fin cpm
    currentMonthContribution := fin cur
    availablePool := fin pool
    isLastMonth := isLast
    actualWithdrawals := fin a
    totalWithdrawn := fin totalWithdrawn
    remainingPool := fin remainingPool
    issueLoan := issueLoan
    loanAmount := fin loanAmount
    interestEarned := fin interestEarned
    nextMonthRepayment := fin nextMonthRepayment }

/-- Rational value of the npvGo accumulation loop on finite inputs. -/
def npvRat (r : ℚ) : List ℚ → ℕ → ℚ → ℚ
  | [], _, acc => acc
  | c :: cs, t, acc => npvRat r cs (t + 1) (acc + c / (1 + r) ^ t)

/-- Rational value of the irrGo accumulation loop on finite inputs. -/
def dnpvRat (r : ℚ) : List ℚ → ℕ → ℚ → ℚ
  | [], _, acc => acc
  | c :: cs, t, acc => dnpvRat r cs (t + 1) (acc - (t : ℚ) * c / (1 + r) ^ (t + 1))

/-- The sum of actualWithdrawals over a list of month records, accumulated
left to right from 0 as the spec invariant reads it. -/
def jsumActuals (l : List MonthRecord) : JsNum :=
  (l.map (·.actualWithdrawals)).foldl jadd (fin 0)

/-- The synthetic round-trip cash-flow sequence of the IRRSolver spec test:
an outflow of 100 now and an inflow of 100 (1+r)^3 three periods later, whose
NPV vanishes exactly at rate r. -/
def roundTripFlows (r : ℚ) : List ℚ := [-100, 0, 0, 100 * (1 + r) ^ 3]

/-- All JsNum fields of a month record are finite. -/
def MonthRecordFin (r : MonthRecord) : Prop :=
  r.withdrawalAmount.isFin ∧ r.contributionPerMember.isFin ∧ r.newContributions.isFin ∧
  r.carryOverFromPrevious.isFin ∧ r.availablePool.isFin ∧ r.actualWithdrawals.isFin ∧
  r.totalWithdrawn.isFin ∧ r.remainingPool.isFin ∧ r.remainingMembersAfter.isFin

/-- All JsNum fields of a loan record are finite. -/
def LoanRecordFin (l : LoanRecord) : Prop :=
  l.availableForLoan.isFin ∧ l.loanAmount.isFin ∧ l.interestEarned.isFin ∧
  l.repaymentDue.isFin

/-- Invariant of the schedule loop under the sign package (positive
withdrawals, nonnegative increment, nonnegative net pool, loan utilization
in [0,100], nonnegative loan interest): the mutable state is finite, with
0 ≤ remainingMembers ≤ totalMembers as an integer and nonnegative carry-over
and pending repayment; every emitted remainingMembersAfter is a nonnegative
integer at least the current remainingMembers; the remainingMembersAfter
values are non-increasing in schedule order, the last one equals the current
remainingMembers, every settlement-flagged record has remainingMembersAfter
0, only the final record may have remainingMembersAfter 0, month indexes are
bounded by the loop counter, and every reported field is finite. -/
def SimInv (m : ℤ) (st : SimState) : Prop :=
  ∃ (k : ℤ) (cq rq : ℚ),
    st.remainingMembers = fin (k : ℚ) ∧ 0 ≤ k ∧ k ≤ m ∧
    st.carryOverPool = fin cq ∧ 0 ≤ cq ∧
    st.loanRepaymentDue = fin rq ∧ 0 ≤ rq ∧
    (∀ r ∈ st.schedule, ∃ j : ℤ, r.remainingMembersAfter = fin (j : ℚ) ∧ k ≤ j ∧ 0 ≤ j) ∧
    List.Chain'
      (fun a b => jle b.remainingMembersAfter a.remainingMembersAfter = true) st.schedule ∧
    (∀ r, st.schedule.getLast? = some r → r.remainingMembersAfter = st.remainingMembers) ∧
    (∀ r ∈ st.schedule, r.isLastMonth = true → r.remainingMembersAfter = fin 0) ∧
    List.Chain' (fun a _ => ¬ a.remainingMembersAfter = fin 0) st.schedule ∧
    (∀ r ∈ st.schedule, 1 ≤ r.month ∧ r.month ≤ st.i) ∧
    (∀ r ∈ st.schedule, MonthRecordFin r) ∧
    (∀ l ∈ st.loans, LoanRecordFin l) ∧
    st.totalLoanAmount.isFin ∧ st.totalInterestEarned.isFin

/-! ## Lemmas: finite-value behaviour of the JavaScript number operations -/

namespace JsNum

@[simp] theorem jneg_fin (a : ℚ) : jneg (fin a) = fin (-a) := rfl

@[simp] theorem jadd_fin (a b : ℚ) : jadd (fin a) (fin b) = fin (a + b) := rfl

@[simp] theorem jsub_fin (a b : ℚ) : jsub (fin a) (fin b) = fin (a - b) := by
  simp [jsub, sub_eq_add_neg]

@[simp] theorem jmul_fin (a b : ℚ) : jmul (fin a) (fin b) = fin (a * b) := rfl

theorem jdiv_fin (a b : ℚ) (hb : b ≠ 0) : jdiv (fin a) (fin b) = fin (a / b) := by
  simp [jdiv, hb]

@[simp] theorem jfloor_fin (a : ℚ) : jfloor (fin a) = fin (⌊a⌋ : ℤ) := rfl

@[simp] theorem jround_fin (a : ℚ) : jround (fin a) = fin (⌊a + 1/2⌋ : ℤ) := rfl

@[simp] theorem jabs_fin (a : ℚ) : jabs (fin a) = fin |a| := rfl

@[simp] theorem jmin_fin (a b : ℚ) : jmin (fin a) (fin b) = fin (min a b) := rfl

@[simp] theorem jlt_fin (a b : ℚ) : jlt (fin a) (fin b) = decide (a < b) := rfl

@[simp] theorem jle_fin (a b : ℚ) : jle (fin a) (fin b) = decide (a ≤ b) := rfl

@[simp] theorem jpow_fin (a : ℚ) (n : ℕ) : jpow (fin a) n = fin (a ^ n) := by
  cases n with
  | zero => simp [jpow]
  | succ m => rfl

theorem jlt_fin_iff {a b : ℚ} : jlt (fin a) (fin b) = true ↔ a < b := by simp

theorem jle_fin_iff {a b : ℚ} : jle (fin a) (fin b) = true ↔ a ≤ b := by simp

end JsNum

/-! ## The loop body on finite states -/

/-- On a finite state, with totalMembers and the month's withdrawal amount
nonzero, the loop body computes exactly its rational mirror. -/
theorem monthCalc_fin (P : CalcInputs) (u cm np : ℚ) (i : ℕ) (k cq rq : ℚ)
    (hm : (P.totalMembers : ℚ) ≠ 0)
    (hw : P.firstWithdrawal + P.monthlyIncrement * (i : ℚ) ≠ 0) :
    monthCalc P u cm np i (fin k) (fin cq) (fin rq) = monthCalcQ P u cm np i k cq rq := by
  have h100 : (100 : ℚ) ≠ 0 := by norm_num
  unfold monthCalc monthCalcQ
  simp only [jadd_fin, jneg_fin, jsub_fin, jmul_fin, jlt_fin, jle_fin, jmin_fin, jfloor_fin,
    ← apply_ite JsNum.fin, jdiv_fin _ _ hm, jdiv_fin _ _ hw, jdiv_fin _ _ h100]


/-- Branch analysis of the loop body under the sign package: when the state
is finite with at least one remaining member, nonnegative carry-over,
repayment and net pool, and a positive withdrawal amount, the withdrawal
count is an integer between 0 and remainingMembers (equal to
remainingMembers in a settlement month, and at least 1 whenever the net pool
covers the withdrawal), and the resulting carry-over and repayment are
nonnegative. -/
theorem monthCalcQ_props (P : CalcInputs) (u cm np : ℚ) (i : ℕ) (k : ℤ) (cq rq : ℚ)
    (hm : (0:ℚ) < (P.totalMembers : ℚ))
    (hw : 0 < P.firstWithdrawal + P.monthlyIncrement * (i : ℚ))
    (hnp : 0 ≤ np) (hu0 : 0 ≤ u) (hu1 : u ≤ 100) (hr : 0 ≤ P.loanInterestRate)
    (hcq : 0 ≤ cq) (hrq : 0 ≤ rq) (hk : 1 ≤ k) :
    ∃ (a : ℤ) (rp la nr : ℚ),
      (monthCalcQ P u cm np i (k : ℚ) cq rq).actualWithdrawals = fin (a : ℚ) ∧
      0 ≤ a ∧ a ≤ k ∧
      ((monthCalcQ P u cm np i (k : ℚ) cq rq).isLastMonth = true → a = k) ∧
      (P.firstWithdrawal + P.monthlyIncrement * (i : ℚ) ≤ np → 1 ≤ a) ∧
      (monthCalcQ P u cm np i (k : ℚ) cq rq).remainingPool = fin rp ∧
      (monthCalcQ P u cm np i (k : ℚ) cq rq).loanAmount = fin la ∧
      (monthCalcQ P u cm np i (k : ℚ) cq rq).nextMonthRepayment = fin nr ∧
      0 ≤ rp - la ∧ 0 ≤ nr := by
  set w := P.firstWithdrawal + P.monthlyIncrement * (i : ℚ) with hwdef
  have hwne : w ≠ 0 := ne_of_gt hw
  by_cases hL : (k : ℚ) * w < np + (cq + rq)
  · -- settlement branch
    have hL' : decide ((k : ℚ) * w < np + (cq + rq)) = true := decide_eq_true hL
    by_cases hRN : (k : ℚ) * w - (cq + rq) ≤ 0
    · -- no new contribution is needed
      have hRN' : decide ((k : ℚ) * w - (cq + rq) ≤ 0) = true := decide_eq_true hRN
      have hfl : k ≤ ⌊(cq + rq) / w⌋ := by
        rw [Int.le_floor]
        rw [le_div_iff₀ hw]
        linarith
      have hmin : min ((⌊(cq + rq) / w⌋ : ℤ) : ℚ) (k : ℚ) = ((k : ℤ) : ℚ) := by
        rw [min_eq_right]
        exact_mod_cast hfl
      refine ⟨k, (cq + rq) - w * (k : ℚ), 0, 0, ?_, by omega, le_refl k, fun _ => rfl,
        fun _ => hk, ?_, ?_, ?_, ?_, le_refl 0⟩
      · simp only [monthCalcQ, hL', hRN']
        simp [hmin]
      · simp only [monthCalcQ, hL', hRN']
        simp [hmin]
      · simp only [monthCalcQ, hL', hRN']
        simp
      · simp only [monthCalcQ, hL', hRN']
        simp
      · have : w * (k : ℚ) ≤ cq + rq := by
          have := hRN
          nlinarith
        linarith
    · -- contributions are recomputed to exactly cover the remaining members
      have hRN' : decide ((k : ℚ) * w - (cq + rq) ≤ 0) = false := decide_eq_false hRN
      have hpool : ((k : ℚ) * w - (cq + rq) + cm) / (P.totalMembers : ℚ) * (P.totalMembers : ℚ)
          - cm + (cq + rq) = (k : ℚ) * w := by
        field_simp
      have hfl : ⌊(k : ℚ) * w / w⌋ = k := by
        rw [mul_div_assoc, div_self hwne, mul_one, Int.floor_intCast]
      refine ⟨k, 0, 0, 0, ?_, by omega, le_refl k, fun _ => rfl, fun _ => hk, ?_, ?_, ?_,
        by norm_num, le_refl 0⟩
      · simp only [monthCalcQ, hL', hRN']
        simp only [Bool.false_eq_true, if_false, if_true]
        rw [hpool, hfl]
        simp
      · simp only [monthCalcQ, hL', hRN']
        simp only [Bool.false_eq_true, if_false, if_true]
        rw [hpool, hfl]
        have : min ((k : ℤ) : ℚ) (k : ℚ) = (k : ℚ) := min_self _
        rw [this]
        norm_num
        ring
      · simp only [monthCalcQ, hL', hRN']
        simp
      · simp only [monthCalcQ, hL', hRN']
        simp
  · -- ordinary month
    have hL' : decide ((k : ℚ) * w < np + (cq + rq)) = false := decide_eq_false hL
    have hpool0 : 0 ≤ np + (cq + rq) := by linarith
    have hfl0 : 0 ≤ ⌊(np + (cq + rq)) / w⌋ := by
      rw [Int.floor_nonneg]
      positivity
    set aZ : ℤ := min ⌊(np + (cq + rq)) / w⌋ k with haZ
    have haQ : min ((⌊(np + (cq + rq)) / w⌋ : ℤ) : ℚ) (k : ℚ) = ((aZ : ℤ) : ℚ) := by
      rw [haZ]
      push_cast [Int.cast_min]
      rfl
    have haw : (aZ : ℚ) * w ≤ np + (cq + rq) := by
      have h1 : (aZ : ℚ) ≤ (np + (cq + rq)) / w := by
        have : (aZ : ℚ) ≤ ((⌊(np + (cq + rq)) / w⌋ : ℤ) : ℚ) := by
          exact_mod_cast min_le_left _ _
        exact this.trans (Int.floor_le _)
      rw [← le_div_iff₀ hw] at *
      exact h1
    have hrp0 : 0 ≤ (np + (cq + rq)) - w * (aZ : ℚ) := by
      have : (aZ : ℚ) * w ≤ np + (cq + rq) := haw
      nlinarith
    refine ⟨aZ, (np + (cq + rq)) - w * (aZ : ℚ),
      (if decide (0 < (np + (cq + rq)) - w * (aZ : ℚ)) then
        ((np + (cq + rq)) - w * (aZ : ℚ)) * u / 100 else 0),
      (if decide (0 < (np + (cq + rq)) - w * (aZ : ℚ)) then
        ((np + (cq + rq)) - w * (aZ : ℚ)) * u / 100
          + ((np + (cq + rq)) - w * (aZ : ℚ)) * u / 100 * P.loanInterestRate / 100 else 0),
      ?_, ?_, min_le_right _ _, ?_, ?_, ?_, ?_, ?_, ?_, ?_⟩
    · simp only [monthCalcQ, hL']
      simp [haQ]
    · exact le_min hfl0 (by omega)
    · intro hcontr
      simp only [monthCalcQ, hL'] at hcontr
      simp at hcontr
    · intro hnpw
      have h1 : 1 ≤ ⌊(np + (cq + rq)) / w⌋ := by
        rw [Int.le_floor]
        rw [le_div_iff₀ hw]
        push_cast
        nlinarith
      exact le_min h1 hk
    · simp only [monthCalcQ, hL']
      simp [haQ]
    · simp only [monthCalcQ, hL']
      simp [haQ]
    · simp only [monthCalcQ, hL']
      simp [haQ]
      split_ifs
      · ring
      · rfl
    · by_cases hc : 0 < (np + (cq + rq)) - w * (aZ : ℚ)
      · have hc' : decide (0 < (np + (cq + rq)) - w * (aZ : ℚ)) = true := decide_eq_true hc
        rw [hc', if_pos rfl]
        have : ((np + (cq + rq)) - w * (aZ : ℚ)) * u / 100
            ≤ (np + (cq + rq)) - w * (aZ : ℚ) := by
          rw [div_le_iff₀ (by norm_num : (0:ℚ) < 100)]
          nlinarith
        linarith
      · have hc' : decide (0 < (np + (cq + rq)) - w * (aZ : ℚ)) = false := decide_eq_false hc
        rw [hc', if_neg (by simp)]
        linarith
    · by_cases hc : 0 < (np + (cq + rq)) - w * (aZ : ℚ)
      · have hc' : decide (0 < (np + (cq + rq)) - w * (aZ : ℚ)) = true := decide_eq_true hc
        rw [hc', if_pos rfl]
        positivity
      · have hc' : decide (0 < (np + (cq + rq)) - w * (aZ : ℚ)) = false := decide_eq_false hc
        rw [hc', if_neg (by simp)]

/-! ## Preservation of the loop invariant -/

theorem isFin_iff (x : JsNum) : x.isFin ↔ ∃ q : ℚ, x = fin q := by
  cases x <;> simp [JsNum.isFin]

theorem isFin_jround (x : JsNum) (h : x.isFin) : (jround x).isFin := by
  cases x <;> simp_all [JsNum.isFin, jround]

theorem monthCalcQ_isFin (P : CalcInputs) (u cm np : ℚ) (i : ℕ) (k cq rq : ℚ) :
    (monthCalcQ P u cm np i k cq rq).withdrawalAmount.isFin ∧
    (monthCalcQ P u cm np i k cq rq).effectiveCarryOver.isFin ∧
    (monthCalcQ P u cm np i k cq rq).contributionPerMember.isFin ∧
    (monthCalcQ P u cm np i k cq rq).currentMonthContribution.isFin ∧
    (monthCalcQ P u cm np i k cq rq).availablePool.isFin ∧
    (monthCalcQ P u cm np i k cq rq).actualWithdrawals.isFin ∧
    (monthCalcQ P u cm np i k cq rq).totalWithdrawn.isFin ∧
    (monthCalcQ P u cm np i k cq rq).remainingPool.isFin ∧
    (monthCalcQ P u cm np i k cq rq).loanAmount.isFin ∧
    (monthCalcQ P u cm np i k cq rq).interestEarned.isFin ∧
    (monthCalcQ P u cm np i k cq rq).nextMonthRepayment.isFin := by
  simp [monthCalcQ, JsNum.isFin]

theorem simStep_inv (P : CalcInputs) (u cm np : ℚ) (st : SimState)
    (hm : 0 < P.totalMembers)
    (hfw : 0 < P.firstWithdrawal) (hinc : 0 ≤ P.monthlyIncrement)
    (hnp : 0 ≤ np) (hu0 : 0 ≤ u) (hu1 : u ≤ 100) (hr : 0 ≤ P.loanInterestRate)
    (hinv : SimInv P.totalMembers st)
    (hcond : jlt (fin 0) st.remainingMembers = true) :
    SimInv P.totalMembers (simStep P u cm np st) ∧
    (simStep P u cm np st).i = st.i + 1 ∧
    (simStep P u cm np st).schedule.length = st.schedule.length + 1 ∧
    (∀ k1 k2 : ℤ, st.remainingMembers = fin (k1 : ℚ) →
        (simStep P u cm np st).remainingMembers = fin (k2 : ℚ) →
        k2 ≤ k1 ∧ (P.firstWithdrawal + P.monthlyIncrement * (st.i : ℚ) ≤ np → k2 < k1)) := by
  obtain ⟨k, cq, rq, hk, hk0, hkm, hcq, hcq0, hrq, hrq0, hall, hchain, hsync, hsettle,
    hpos, hmon, hrfin, hlfin, htl, hti⟩ := hinv
  have hkpos : 1 ≤ k := by
    rw [hk] at hcond
    simp only [jlt_fin, decide_eq_true_eq] at hcond
    exact_mod_cast hcond
  have hmQ : (0:ℚ) < (P.totalMembers : ℚ) := by exact_mod_cast hm
  have hwpos : 0 < P.firstWithdrawal + P.monthlyIncrement * (st.i : ℚ) := by
    have : (0:ℚ) ≤ P.monthlyIncrement * (st.i : ℚ) :=
      mul_nonneg hinc (Nat.cast_nonneg _)
    linarith
  have hmc : monthCalc P u cm np st.i st.remainingMembers st.carryOverPool st.loanRepaymentDue
      = monthCalcQ P u cm np st.i (k : ℚ) cq rq := by
    rw [hk, hcq, hrq]
    exact monthCalc_fin P u cm np st.i _ cq rq (ne_of_gt hmQ) (ne_of_gt hwpos)
  obtain ⟨a, rp, la, nr, ha, ha0, hak, hlast_a, hbig_a, hrp, hla, hnr, hcarry0, hnr0⟩ :=
    monthCalcQ_props P u cm np st.i k cq rq hmQ hwpos hnp hu0 hu1 hr hcq0 hrq0 hkpos
  obtain ⟨f1, f2, f3, f4, f5, f6, f7, f8, f9, f10, f11⟩ :=
    monthCalcQ_isFin P u cm np st.i (k : ℚ) cq rq
  -- the pieces of the new state
  have hSrem : (simStep P u cm np st).remainingMembers = fin ((k - a : ℤ) : ℚ) := by
    show jsub st.remainingMembers
      (monthCalc P u cm np st.i st.remainingMembers st.carryOverPool
        st.loanRepaymentDue).actualWithdrawals = _
    rw [hmc, ha, hk, jsub_fin]
    push_cast
    ring_nf
  have hScarry : (simStep P u cm np st).carryOverPool = fin (rp - la) := by
    show jsub (monthCalc P u cm np st.i st.remainingMembers st.carryOverPool
        st.loanRepaymentDue).remainingPool
      (monthCalc P u cm np st.i st.remainingMembers st.carryOverPool
        st.loanRepaymentDue).loanAmount = _
    rw [hmc, hrp, hla, jsub_fin]
  have hSrepay : (simStep P u cm np st).loanRepaymentDue = fin nr := by
    show (monthCalc P u cm np st.i st.remainingMembers st.carryOverPool
        st.loanRepaymentDue).nextMonthRepayment = _
    rw [hmc, hnr]
  set mcq := monthCalcQ P u cm np st.i (k : ℚ) cq rq with hmcqdef
  set REC : MonthRecord :=
    { month := st.i + 1
      withdrawalAmount := jround mcq.withdrawalAmount
      contributionPerMember := jround mcq.contributionPerMember
      newContributions := jround mcq.currentMonthContribution
      carryOverFromPrevious := jround mcq.effectiveCarryOver
      availablePool := jround mcq.availablePool
      actualWithdrawals := mcq.actualWithdrawals
      totalWithdrawn := jround mcq.totalWithdrawn
      remainingPool := jround mcq.remainingPool
      remainingMembersAfter := jsub st.remainingMembers mcq.actualWithdrawals
      isLastMonth := mcq.isLastMonth } with hRECdef
  set LREC : LoanRecord :=
    { month := st.i + 1
      availableForLoan := jround mcq.remainingPool
      loanAmount := jround mcq.loanAmount
      interestRate := P.loanInterestRate
      interestEarned := jround mcq.interestEarned
      repaymentDue := jround mcq.nextMonthRepayment } with hLRECdef
  have hSsched : (simStep P u cm np st).schedule = st.schedule ++ [REC] := by
    simp only [simStep, hmc, hRECdef]
  have hSloans : (simStep P u cm np st).loans =
      (if mcq.issueLoan then st.loans ++ [LREC] else st.loans) := by
    simp only [simStep, hmc, hLRECdef]
  have hStl : (simStep P u cm np st).totalLoanAmount =
      (if mcq.issueLoan then jadd st.totalLoanAmount mcq.loanAmount
        else st.totalLoanAmount) := by
    simp only [simStep, hmc]
  have hSti : (simStep P u cm np st).totalInterestEarned =
      (if mcq.issueLoan then jadd st.totalInterestEarned mcq.interestEarned
        else st.totalInterestEarned) := by
    simp only [simStep, hmc]
  have hRECafter : REC.remainingMembersAfter = fin ((k - a : ℤ) : ℚ) := by
    rw [hRECdef]
    show jsub st.remainingMembers mcq.actualWithdrawals = _
    rw [hk, ha, jsub_fin]
    push_cast
    ring_nf
  have hRECflag : REC.isLastMonth = mcq.isLastMonth := rfl
  have hRECmonth : REC.month = st.i + 1 := rfl
  have hSi : (simStep P u cm np st).i = st.i + 1 := rfl
  refine ⟨?_, rfl, ?_, ?_⟩
  · refine ⟨k - a, rp - la, nr, hSrem, by omega, by omega, hScarry, hcarry0, hSrepay, hnr0,
      ?_, ?_, ?_, ?_, ?_, ?_, ?_, ?_, ?_, ?_⟩
    · -- every emitted after-value is a nonnegative integer at least the new count
      intro r hr
      rw [hSsched] at hr
      rcases List.mem_append.mp hr with hold | hnew
      · obtain ⟨j, hj, hkj, hj0⟩ := hall r hold
        exact ⟨j, hj, by omega, hj0⟩
      · have : r = REC := by simpa using hnew
        subst this
        exact ⟨k - a, hRECafter, le_refl _, by omega⟩
    · -- after-values are non-increasing
      rw [hSsched]
      refine List.chain'_append.mpr ⟨hchain, List.chain'_singleton _, ?_⟩
      intro x hx y hy
      have hxa : x.remainingMembersAfter = st.remainingMembers := hsync x hx
      have hy' : REC = y := by simpa using hy
      subst hy'
      rw [hRECafter, hxa, hk, jle_fin, decide_eq_true_eq]
      have : k - a ≤ k := by omega
      exact_mod_cast this
    · -- the last after-value equals the new remaining count
      intro r hr
      rw [hSsched, List.getLast?_concat] at hr
      have : REC = r := by simpa using hr
      subst this
      rw [hRECafter, hSrem]
    · -- settlement months clear everyone
      intro r hr hflag
      rw [hSsched] at hr
      rcases List.mem_append.mp hr with hold | hnew
      · exact hsettle r hold hflag
      · have : r = REC := by simpa using hnew
        subst this
        rw [hRECflag] at hflag
        have hka : a = k := hlast_a hflag
        rw [hRECafter, hka]
        norm_num
    · -- only the final record can have after-value 0
      rw [hSsched]
      refine List.chain'_append.mpr ⟨hpos, List.chain'_singleton _, ?_⟩
      intro x hx y _
      have hxa : x.remainingMembersAfter = st.remainingMembers := hsync x hx
      rw [hxa, hk]
      intro hcontr
      have : (k : ℚ) = 0 := JsNum.fin.inj hcontr
      have : k = 0 := by exact_mod_cast this
      omega
    · -- month indexes are bounded by the loop counter
      intro r hr
      rw [hSsched] at hr
      rw [hSi]
      rcases List.mem_append.mp hr with hold | hnew
      · obtain ⟨h1, h2⟩ := hmon r hold
        exact ⟨h1, by omega⟩
      · have : r = REC := by simpa using hnew
        subst this
        rw [hRECmonth]
        omega
    · -- every reported month field is finite
      intro r hr
      rw [hSsched] at hr
      rcases List.mem_append.mp hr with hold | hnew
      · exact hrfin r hold
      · have : r = REC := by simpa using hnew
        subst this
        refine ⟨isFin_jround _ f1, isFin_jround _ f3, isFin_jround _ f4, isFin_jround _ f2,
          isFin_jround _ f5, f6, isFin_jround _ f7, isFin_jround _ f8, ?_⟩
        rw [hRECafter]
        trivial
    · -- every reported loan field is finite
      intro l hl
      rw [hSloans] at hl
      by_cases hIL : mcq.issueLoan = true
      · rw [if_pos hIL] at hl
        rcases List.mem_append.mp hl with hold | hnew
        · exact hlfin l hold
        · have : l = LREC := by simpa using hnew
          subst this
          exact ⟨isFin_jround _ f8, isFin_jround _ f9, isFin_jround _ f10, isFin_jround _ f11⟩
      · rw [if_neg hIL] at hl
        exact hlfin l hl
    · -- the loan total stays finite
      rw [hStl]
      by_cases hIL : mcq.issueLoan = true
      · rw [if_pos hIL]
        obtain ⟨t, ht⟩ := (isFin_iff _).mp htl
        rw [ht, hla, jadd_fin]
        trivial
      · rw [if_neg hIL]
        exact htl
    · -- the interest total stays finite
      rw [hSti]
      by_cases hIL : mcq.issueLoan = true
      · rw [if_pos hIL]
        obtain ⟨t, ht⟩ := (isFin_iff _).mp hti
        obtain ⟨e, he⟩ := (isFin_iff _).mp f10
        rw [ht, he, jadd_fin]
        trivial
      · rw [if_neg hIL]
        exact hti
  · show (st.schedule ++ [_]).length = _
    simp
  · intro k1 k2 h1 h2
    rw [hk] at h1
    rw [hSrem] at h2
    have e1 : k = k1 := by exact_mod_cast JsNum.fin.inj h1
    have e2 : k - a = k2 := by exact_mod_cast JsNum.fin.inj h2
    subst e1
    constructor
    · omega
    · intro hb
      have := hbig_a hb
      omega

/-! ## Run-level lemmas -/

theorem simRun_len (P : CalcInputs) (u cm np : ℚ) :
    ∀ (fuel : ℕ) (st : SimState),
      st.schedule.length ≤ (simRun P u cm np fuel st).schedule.length := by
  intro fuel
  induction fuel with
  | zero => intro st; exact le_refl _
  | succ f ih =>
    intro st
    simp only [simRun]
    by_cases hc : jlt (fin 0) st.remainingMembers = true
    · rw [if_pos hc]
      have h1 : st.schedule.length ≤ (simStep P u cm np st).schedule.length := by
        show st.schedule.length ≤ (st.schedule ++ [_]).length
        simp
      exact h1.trans (ih _)
    · rw [if_neg hc]

theorem simRun_i_le (P : CalcInputs) (u cm np : ℚ) :
    ∀ (fuel : ℕ) (st : SimState), (simRun P u cm np fuel st).i ≤ st.i + fuel := by
  intro fuel
  induction fuel with
  | zero => intro st; simp [simRun]
  | succ f ih =>
    intro st
    simp only [simRun]
    by_cases hc : jlt (fin 0) st.remainingMembers = true
    · rw [if_pos hc]
      have h1 := ih (simStep P u cm np st)
      have h2 : (simStep P u cm np st).i = st.i + 1 := rfl
      omega
    · rw [if_neg hc]
      omega

theorem simRun_inv (P : CalcInputs) (u cm np : ℚ)
    (hm : 0 < P.totalMembers) (hfw : 0 < P.firstWithdrawal) (hinc : 0 ≤ P.monthlyIncrement)
    (hnp : 0 ≤ np) (hu0 : 0 ≤ u) (hu1 : u ≤ 100) (hr : 0 ≤ P.loanInterestRate) :
    ∀ (fuel : ℕ) (st : SimState), SimInv P.totalMembers st →
      SimInv P.totalMembers (simRun P u cm np fuel st) := by
  intro fuel
  induction fuel with
  | zero => intro st h; exact h
  | succ f ih =>
    intro st h
    simp only [simRun]
    by_cases hc : jlt (fin 0) st.remainingMembers = true
    · rw [if_pos hc]
      exact ih _ (simStep_inv P u cm np st hm hfw hinc hnp hu0 hu1 hr h hc).1
    · rw [if_neg hc]
      exact h

theorem simRun_zero (P : CalcInputs) (u cm np : ℚ)
    (hm : 0 < P.totalMembers) (hfw : 0 < P.firstWithdrawal) (hinc : 0 ≤ P.monthlyIncrement)
    (hnp : 0 ≤ np) (hu0 : 0 ≤ u) (hu1 : u ≤ 100) (hr : 0 ≤ P.loanInterestRate)
    (hbig : P.firstWithdrawal + P.monthlyIncrement * ((P.totalMembers : ℚ) - 1) ≤ np) :
    ∀ (fuel : ℕ) (st : SimState), SimInv P.totalMembers st →
      (∀ k : ℤ, st.remainingMembers = fin (k : ℚ) → k ≤ fuel) →
      st.i + fuel ≤ P.totalMembers.toNat →
      (simRun P u cm np fuel st).remainingMembers = fin 0 := by
  intro fuel
  induction fuel with
  | zero =>
    intro st hinv hbound _
    have hinvC := hinv
    obtain ⟨k, cq, rq, hk, hk0, -⟩ := hinvC
    have h1 := hbound k hk
    have h2 : k = 0 := by omega
    subst h2
    show st.remainingMembers = fin 0
    rw [hk]
    norm_num
  | succ f ih =>
    intro st hinv hbound hfuel
    simp only [simRun]
    by_cases hc : jlt (fin 0) st.remainingMembers = true
    · rw [if_pos hc]
      have hstep := simStep_inv P u cm np st hm hfw hinc hnp hu0 hu1 hr hinv hc
      have hSinv := hstep.1
      have hinvC := hinv
      obtain ⟨k, cq, rq, hk, hk0, hkm, -⟩ := hinvC
      have hSinvC := hSinv
      obtain ⟨k2, cq2, rq2, hk2, hk20, hk2m, -⟩ := hSinvC
      have hle := hstep.2.2.2 k k2 hk hk2
      have hiQ : (st.i : ℚ) ≤ (P.totalMembers : ℚ) - 1 := by
        have h1 : (st.i : ℤ) + 1 ≤ P.totalMembers := by omega
        have h2 : (st.i : ℤ) ≤ P.totalMembers - 1 := by omega
        exact_mod_cast h2
      have hwnp : P.firstWithdrawal + P.monthlyIncrement * (st.i : ℚ) ≤ np := by
        have h3 : P.monthlyIncrement * (st.i : ℚ)
            ≤ P.monthlyIncrement * ((P.totalMembers : ℚ) - 1) :=
          mul_le_mul_of_nonneg_left hiQ hinc
        linarith
      have hk2lt : k2 < k := hle.2 hwnp
      apply ih (simStep P u cm np st) hSinv
      · intro k3 hk3
        have : k3 = k2 := by
          have := hk2.symm.trans hk3
          exact_mod_cast (JsNum.fin.inj this).symm
        have hkb := hbound k hk
        omega
      · have h2 : (simStep P u cm np st).i = st.i + 1 := rfl
        omega
    · rw [if_neg hc]
      have hinvC := hinv
      obtain ⟨k, cq, rq, hk, hk0, -⟩ := hinvC
      rw [hk] at hc
      simp only [jlt_fin, decide_eq_true_eq] at hc
      have : ¬ (0:ℚ) < (k : ℚ) := by
        intro hcc
        exact hc (by exact_mod_cast hcc)
      have hk0' : k = 0 := by
        have : ¬ 0 < k := fun hcc => this (by exact_mod_cast hcc)
        omega
      subst hk0'
      show st.remainingMembers = fin 0
      rw [hk]
      norm_num

theorem initState_inv (P : CalcInputs) (hm : 0 < P.totalMembers) :
    SimInv P.totalMembers (initState P) := by
  refine ⟨P.totalMembers, 0, 0, rfl, le_of_lt hm, le_refl _, rfl, le_refl 0, rfl, le_refl 0,
    ?_, ?_, ?_, ?_, ?_, ?_, ?_, ?_, ?_, ?_⟩
  · intro r hr
    simp [initState] at hr
  · simp [initState]
  · intro r hr
    simp [initState] at hr
  · intro r hr
    simp [initState] at hr
  · simp [initState]
  · intro r hr
    simp [initState] at hr
  · intro r hr
    simp [initState] at hr
  · intro l hl
    simp [initState] at hl
  · trivial
  · trivial

theorem chit_schedule_nonempty (P : CalcInputs) (u cm np : ℚ) (hm : 0 < P.totalMembers) :
    1 ≤ (simRun P u cm np P.totalMembers.toNat (initState P)).schedule.length := by
  obtain ⟨f, hf⟩ : ∃ f, P.totalMembers.toNat = f + 1 :=
    ⟨P.totalMembers.toNat - 1, by omega⟩
  rw [hf]
  simp only [simRun]
  have hc : jlt (fin 0) (initState P).remainingMembers = true := by
    show jlt (fin 0) (fin (P.totalMembers : ℚ)) = true
    simp only [jlt_fin, decide_eq_true_eq]
    exact_mod_cast hm
  rw [if_pos hc]
  have h1 : (simStep P u cm np (initState P)).schedule.length = 1 := by
    show (([] : List MonthRecord) ++ [_]).length = 1
    simp
  calc 1 = (simStep P u cm np (initState P)).schedule.length := h1.symm
    _ ≤ _ := simRun_len P u cm np f _

theorem jsub_fin_jsub (M : ℚ) (R A : JsNum) :
    jsub (fin M) (jsub R A) = jadd (jsub (fin M) R) A := by
  cases R <;> cases A <;> (simp [jsub, jadd, jneg]; try ring)

theorem simStep_sum (P : CalcInputs) (u cm np : ℚ) (st : SimState) (M : ℚ)
    (h1 : jsumActuals st.schedule = jsub (fin M) st.remainingMembers) :
    jsumActuals (simStep P u cm np st).schedule
        = jsub (fin M) (simStep P u cm np st).remainingMembers ∧
      (∀ r, (simStep P u cm np st).schedule.getLast? = some r →
        r.remainingMembersAfter = (simStep P u cm np st).remainingMembers) := by
  constructor
  · show jsumActuals (st.schedule ++ [_]) = _
    rw [jsumActuals, List.map_append, List.foldl_append]
    simp only [List.map_cons, List.map_nil, List.foldl_cons, List.foldl_nil]
    rw [← jsumActuals, h1]
    exact (jsub_fin_jsub M st.remainingMembers _).symm
  · intro r hr
    have hr2 : (st.schedule ++ [_]).getLast? = some r := hr
    rw [List.getLast?_concat] at hr2
    have h2 := Option.some.inj hr2
    rw [← h2]
    rfl

theorem simRun_sum (P : CalcInputs) (u cm np : ℚ) (M : ℚ) :
    ∀ (fuel : ℕ) (st : SimState),
      jsumActuals st.schedule = jsub (fin M) st.remainingMembers →
      (∀ r, st.schedule.getLast? = some r →
        r.remainingMembersAfter = st.remainingMembers) →
      jsumActuals (simRun P u cm np fuel st).schedule
          = jsub (fin M) (simRun P u cm np fuel st).remainingMembers ∧
        (∀ r, (simRun P u cm np fuel st).schedule.getLast? = some r →
          r.remainingMembersAfter = (simRun P u cm np fuel st).remainingMembers) := by
  intro fuel
  induction fuel with
  | zero => intro st h1 h2; exact ⟨h1, h2⟩
  | succ f ih =>
    intro st h1 h2
    simp only [simRun]
    by_cases hc : jlt (fin 0) st.remainingMembers = true
    · rw [if_pos hc]
      exact ih _ (simStep_sum P u cm np st M h1).1 (simStep_sum P u cm np st M h1).2
    · rw [if_neg hc]
      exact ⟨h1, h2⟩

/-! ## Claim theorems -/

theorem chit_fields (P : CalcInputs) (u : ℚ) (hm : 0 < P.totalMembers) :
    (calculateChitDetails P u).withdrawalSchedule
        = (simRun P u (commissionPerMonthQ P) (netPoolPerMonthQ P)
            P.totalMembers.toNat (initState P)).schedule ∧
    (calculateChitDetails P u).totalMembersServed
        = jsub (fin (P.totalMembers : ℚ))
            (((simRun P u (commissionPerMonthQ P) (netPoolPerMonthQ P)
              P.totalMembers.toNat (initState P)).schedule.getLastD
                defaultMonthRecord).remainingMembersAfter) ∧
    (calculateChitDetails P u).finalCarryOver
        = ((simRun P u (commissionPerMonthQ P) (netPoolPerMonthQ P)
            P.totalMembers.toNat (initState P)).schedule.getLastD
              defaultMonthRecord).remainingPool ∧
    (calculateChitDetails P u).loanDetails
        = (simRun P u (commissionPerMonthQ P) (netPoolPerMonthQ P)
            P.totalMembers.toNat (initState P)).loans ∧
    (calculateChitDetails P u).totalLoanAmount
        = jround (simRun P u (commissionPerMonthQ P) (netPoolPerMonthQ P)
            P.totalMembers.toNat (initState P)).totalLoanAmount ∧
    (calculateChitDetails P u).totalInterestEarned
        = jround (simRun P u (commissionPerMonthQ P) (netPoolPerMonthQ P)
            P.totalMembers.toNat (initState P)).totalInterestEarned ∧
    (calculateChitDetails P u).totalPool
        = fin ((P.totalMembers : ℚ) * P.monthlyContribution) ∧
    (calculateChitDetails P u).commissionPerMonth = fin (roundQ (commissionPerMonthQ P)) ∧
    (calculateChitDetails P u).totalCommission = fin (roundQ (totalCommissionQ P)) ∧
    (calculateChitDetails P u).netPoolPerMonth = fin (netPoolPerMonthQ P) := by
  unfold calculateChitDetails
  rw [if_neg (not_le.mpr hm)]
  exact ⟨rfl, rfl, rfl, rfl, rfl, rfl, rfl, rfl, rfl, rfl⟩

theorem chit_getLast_some (P : CalcInputs) (u : ℚ) (hm : 0 < P.totalMembers) :
    ∃ r, (simRun P u (commissionPerMonthQ P) (netPoolPerMonthQ P)
        P.totalMembers.toNat (initState P)).schedule.getLast? = some r := by
  have hne := chit_schedule_nonempty P u (commissionPerMonthQ P) (netPoolPerMonthQ P) hm
  cases hgl : (simRun P u (commissionPerMonthQ P) (netPoolPerMonthQ P)
      P.totalMembers.toNat (initState P)).schedule.getLast? with
  | some r => exact ⟨r, rfl⟩
  | none =>
    rw [List.getLast?_eq_none_iff] at hgl
    rw [hgl] at hne
    simp at hne

/-- C3 amended: under the sign package (positive first withdrawal,
nonnegative increment, nonnegative net pool, loan utilization in [0,100],
nonnegative loan interest), remainingMembersAfter is non-increasing across
consecutive month records; and when additionally the net pool covers every
month's withdrawal amount (netPoolPerMonth at least firstWithdrawal +
monthlyIncrement x (totalMembers - 1)), the last month record has
remainingMembersAfter = 0 and its month index is at most totalMembers.
(The unrestricted claim fails: see the counterexample.) -/
theorem claim_C3_amended (P : CalcInputs) (u : ℚ)
    (hm : 0 < P.totalMembers) (hfw : 0 < P.firstWithdrawal) (hinc : 0 ≤ P.monthlyIncrement)
    (hnp : 0 ≤ netPoolPerMonthQ P) (hu0 : 0 ≤ u) (hu1 : u ≤ 100)
    (hr : 0 ≤ P.loanInterestRate) :
    List.Chain' (fun a b => jle b.remainingMembersAfter a.remainingMembersAfter = true)
      (calculateChitDetails P u).withdrawalSchedule ∧
    (P.firstWithdrawal + P.monthlyIncrement * ((P.totalMembers : ℚ) - 1)
        ≤ netPoolPerMonthQ P →
      ∃ r, (calculateChitDetails P u).withdrawalSchedule.getLast? = some r ∧
        r.remainingMembersAfter = fin 0 ∧ r.month ≤ P.totalMembers.toNat) := by
  have hsched := (chit_fields P u hm).1
  have hfinal := simRun_inv P u (commissionPerMonthQ P) (netPoolPerMonthQ P)
    hm hfw hinc hnp hu0 hu1 hr P.totalMembers.toNat (initState P) (initState_inv P hm)
  constructor
  · rw [hsched]
    have hfinalC := hfinal
    obtain ⟨k, cq, rq, -, -, -, -, -, -, -, -, hchain, -⟩ := hfinalC
    exact hchain
  · intro hbig
    have hzero := simRun_zero P u (commissionPerMonthQ P) (netPoolPerMonthQ P)
      hm hfw hinc hnp hu0 hu1 hr hbig P.totalMembers.toNat (initState P)
      (initState_inv P hm)
      (by
        intro k hk
        have : ((P.totalMembers : ℤ) : ℚ) = (k : ℚ) := JsNum.fin.inj hk
        have hkm : k = P.totalMembers := by exact_mod_cast this.symm
        omega)
      (by simp [initState])
    obtain ⟨r, hr⟩ := chit_getLast_some P u hm
    have hfinalC := hfinal
    obtain ⟨k, cq, rq, -, -, -, -, -, -, -, -, -, hsync, -, -, hmon, -⟩ := hfinalC
    refine ⟨r, by rw [hsched]; exact hr, ?_, ?_⟩
    · rw [hsync r hr, hzero]
    · have hmem : r ∈ (simRun P u (commissionPerMonthQ P) (netPoolPerMonthQ P)
          P.totalMembers.toNat (initState P)).schedule := by
        obtain ⟨hne2, heq⟩ := List.mem_getLast?_eq_getLast (show r ∈ _ from hr)
        rw [heq]
        exact List.getLast_mem hne2
      have h1 := (hmon r hmem).2
      have h2 := simRun_i_le P u (commissionPerMonthQ P) (netPoolPerMonthQ P)
        P.totalMembers.toNat (initState P)
      have h3 : (initState P).i = 0 := rfl
      omega

/-- C4 amended: for totalMembers > 0 the sum of actualWithdrawals over all
month records always equals the returned totalMembersServed (this part needs
no further hypotheses); and under the sign package the returned
totalMembersServed is an integer at most totalMembers.  (The unrestricted
comparison fails because totalMembersServed can be NaN: see the
counterexample.) -/
theorem claim_C4_amended (P : CalcInputs) (u : ℚ) (hm : 0 < P.totalMembers) :
    jsumActuals (calculateChitDetails P u).withdrawalSchedule
        = (calculateChitDetails P u).totalMembersServed ∧
    (0 < P.firstWithdrawal → 0 ≤ P.monthlyIncrement → 0 ≤ netPoolPerMonthQ P →
      0 ≤ u → u ≤ 100 → 0 ≤ P.loanInterestRate →
      ∃ s : ℤ, (calculateChitDetails P u).totalMembersServed = fin (s : ℚ) ∧
        s ≤ P.totalMembers) := by
  have hcf := chit_fields P u hm
  have hsum := simRun_sum P u (commissionPerMonthQ P) (netPoolPerMonthQ P)
    (P.totalMembers : ℚ) P.totalMembers.toNat (initState P)
    (by
      show jsumActuals [] = jsub (fin (P.totalMembers : ℚ)) (fin (P.totalMembers : ℚ))
      rw [jsub_fin]
      simp [jsumActuals])
    (by intro r hr; simp [initState] at hr)
  obtain ⟨r, hr⟩ := chit_getLast_some P u hm
  have hgetD : ((simRun P u (commissionPerMonthQ P) (netPoolPerMonthQ P)
      P.totalMembers.toNat (initState P)).schedule.getLastD defaultMonthRecord) = r := by
    rw [List.getLastD_eq_getLast?, hr]
    rfl
  constructor
  · rw [hcf.1, hcf.2.1, hgetD, hsum.2 r hr, hsum.1]
  · intro hfw hinc hnp hu0 hu1 hrr
    have hfinal := simRun_inv P u (commissionPerMonthQ P) (netPoolPerMonthQ P)
      hm hfw hinc hnp hu0 hu1 hrr P.totalMembers.toNat (initState P) (initState_inv P hm)
    obtain ⟨k, cq, rq, hk, hk0, hkm, -, -, -, -, -, -, hsync, -⟩ := hfinal
    refine ⟨P.totalMembers - k, ?_, by omega⟩
    rw [hcf.2.1, hgetD, hsync r hr, hk, jsub_fin]
    push_cast
    ring_nf

/-- C5 amended: under the sign package, any month record flagged
isLastMonth is the final record of the schedule and has
remainingMembersAfter = 0, i.e. the settlement period clears all remaining
members.  (Unrestricted, a negative monthly increment gives a
settlement-flagged record that neither ends the schedule nor clears the
members: see the counterexample.) -/
theorem claim_C5_amended (P : CalcInputs) (u : ℚ)
    (hm : 0 < P.totalMembers) (hfw : 0 < P.firstWithdrawal) (hinc : 0 ≤ P.monthlyIncrement)
    (hnp : 0 ≤ netPoolPerMonthQ P) (hu0 : 0 ≤ u) (hu1 : u ≤ 100)
    (hr : 0 ≤ P.loanInterestRate) :
    ∀ (i : ℕ) (r : MonthRecord),
      (calculateChitDetails P u).withdrawalSchedule[i]? = some r →
      r.isLastMonth = true →
      i + 1 = (calculateChitDetails P u).withdrawalSchedule.length ∧
      r.remainingMembersAfter = fin 0 := by
  intro i r hget hflag
  have hsched := (chit_fields P u hm).1
  rw [hsched] at hget ⊢
  have hfinal := simRun_inv P u (commissionPerMonthQ P) (netPoolPerMonthQ P)
    hm hfw hinc hnp hu0 hu1 hr P.totalMembers.toNat (initState P) (initState_inv P hm)
  obtain ⟨k, cq, rq, -, -, -, -, -, -, -, -, -, -, hsettle, hpos, -⟩ := hfinal
  obtain ⟨hlen, hgetE⟩ := List.getElem?_eq_some_iff.mp hget
  have hmem : r ∈ (simRun P u (commissionPerMonthQ P) (netPoolPerMonthQ P)
      P.totalMembers.toNat (initState P)).schedule := by
    rw [← hgetE]
    exact List.getElem_mem hlen
  have hafter := hsettle r hmem hflag
  refine ⟨?_, hafter⟩
  by_contra hne
  have hlt : i + 1 < (simRun P u (commissionPerMonthQ P) (netPoolPerMonthQ P)
      P.totalMembers.toNat (initState P)).schedule.length := by omega
  have hrel := List.chain'_iff_get.mp hpos i (by omega)
  apply hrel
  have hgg : (simRun P u (commissionPerMonthQ P) (netPoolPerMonthQ P)
      P.totalMembers.toNat (initState P)).schedule.get ⟨i, by omega⟩ = r := by
    rw [List.get_eq_getElem]
    exact hgetE
  rw [hgg]
  exact hafter

/-- C10 amended: the core is a total function (the model raises nothing on
any input), and under the sign package every numeric field of the month
records, the loan records and the pool aggregates of the returned result is
a finite number.  (For firstWithdrawal = 0 with monthlyIncrement = 0 the
division availablePool / withdrawalAmount is 0/0 and NaN reaches the
output: see the counterexample.) -/
theorem claim_C10_amended (P : CalcInputs) (u : ℚ)
    (hm : 0 < P.totalMembers) (hfw : 0 < P.firstWithdrawal) (hinc : 0 ≤ P.monthlyIncrement)
    (hnp : 0 ≤ netPoolPerMonthQ P) (hu0 : 0 ≤ u) (hu1 : u ≤ 100)
    (hr : 0 ≤ P.loanInterestRate) :
    (∀ r ∈ (calculateChitDetails P u).withdrawalSchedule, MonthRecordFin r) ∧
    (∀ l ∈ (calculateChitDetails P u).loanDetails, LoanRecordFin l) ∧
    (calculateChitDetails P u).totalPool.isFin ∧
    (calculateChitDetails P u).commissionPerMonth.isFin ∧
    (calculateChitDetails P u).totalCommission.isFin ∧
    (calculateChitDetails P u).netPoolPerMonth.isFin ∧
    (calculateChitDetails P u).totalMembersServed.isFin ∧
    (calculateChitDetails P u).finalCarryOver.isFin ∧
    (calculateChitDetails P u).totalLoanAmount.isFin ∧
    (calculateChitDetails P u).totalInterestEarned.isFin := by
  have hcf := chit_fields P u hm
  have hfinal := simRun_inv P u (commissionPerMonthQ P) (netPoolPerMonthQ P)
    hm hfw hinc hnp hu0 hu1 hr P.totalMembers.toNat (initState P) (initState_inv P hm)
  obtain ⟨k, cq, rq, hk, -, -, -, -, -, -, -, -, hsync, -, -, -, hrfin, hlfin, htl, hti⟩ :=
    hfinal
  obtain ⟨r, hr⟩ := chit_getLast_some P u hm
  have hgetD : ((simRun P u (commissionPerMonthQ P) (netPoolPerMonthQ P)
      P.totalMembers.toNat (initState P)).schedule.getLastD defaultMonthRecord) = r := by
    rw [List.getLastD_eq_getLast?, hr]
    rfl
  have hmem : r ∈ (simRun P u (commissionPerMonthQ P) (netPoolPerMonthQ P)
      P.totalMembers.toNat (initState P)).schedule := by
    obtain ⟨hne2, heq⟩ := List.mem_getLast?_eq_getLast (show r ∈ _ from hr)
    rw [heq]
    exact List.getLast_mem hne2
  refine ⟨?_, ?_, ?_, ?_, ?_, ?_, ?_, ?_, ?_, ?_⟩
  · rw [hcf.1]
    exact hrfin
  · rw [hcf.2.2.2.1]
    exact hlfin
  · rw [hcf.2.2.2.2.2.2.1]
    trivial
  · rw [hcf.2.2.2.2.2.2.2.1]
    trivial
  · rw [hcf.2.2.2.2.2.2.2.2.1]
    trivial
  · rw [hcf.2.2.2.2.2.2.2.2.2]
    trivial
  · rw [hcf.2.1, hgetD, hsync r hr, hk, jsub_fin]
    trivial
  · rw [hcf.2.2.1, hgetD]
    exact (hrfin r hmem).2.2.2.2.2.2.2.1
  · rw [hcf.2.2.2.2.1]
    exact isFin_jround _ htl
  · rw [hcf.2.2.2.2.2.1]
    exact isFin_jround _ hti


/-- C1: for totalMembers=20, monthlyContribution=5000, firstWithdrawal=80000,
monthlyIncrement=1000, per-period commission rate 5, loan interest 2, loan
utilization 50, the simulator returns totalPool = 100000, commissionPerMonth
= 5000, netPoolPerMonth = 95000, and its first month record and first loan
record have withdrawalAmount = 80000, actualWithdrawals = 1, remainingPool =
15000, loanAmount = 7500, interestEarned = 150, repaymentDue = 7650. -/
theorem claim_C1_concrete_scenario :
    (let r := calculateChitDetails
        { totalMembers := 20, monthlyContribution := 5000, firstWithdrawal := 80000
          finalWithdrawal := 99000, monthlyIncrement := 1000
          commissionType := CommissionType.monthly, commissionRate := 5
          oneTimeCommission := 10000, loanInterestRate := 2 } 50
     (r.totalPool, r.commissionPerMonth, r.netPoolPerMonth,
      r.withdrawalSchedule.head?.map
        (fun m => (m.withdrawalAmount, m.actualWithdrawals, m.remainingPool)),
      r.loanDetails.head?.map
        (fun l => (l.loanAmount, l.interestEarned, l.repaymentDue))))
    = (fin 100000, fin 5000, fin 95000,
       some (fin 80000, fin 1, fin 15000),
       some (fin 7500, fin 150, fin 7650)) := by
  with_unfolding_all rfl

/-- C2: whenever totalMembers ≤ 0 the simulator returns, without raising, a
result whose duration and aggregates are all zero and whose record sequences
are all empty. -/
theorem claim_C2_degenerate (P : CalcInputs) (u : ℚ) (h : P.totalMembers ≤ 0) :
    (calculateChitDetails P u).duration = 0 ∧
    (calculateChitDetails P u).totalPool = fin 0 ∧
    (calculateChitDetails P u).commissionPerMonth = fin 0 ∧
    (calculateChitDetails P u).totalCommission = fin 0 ∧
    (calculateChitDetails P u).netPoolPerMonth = fin 0 ∧
    (calculateChitDetails P u).totalMembersServed = fin 0 ∧
    (calculateChitDetails P u).finalCarryOver = fin 0 ∧
    (calculateChitDetails P u).totalLoanAmount = fin 0 ∧
    (calculateChitDetails P u).totalInterestEarned = fin 0 ∧
    (calculateChitDetails P u).withdrawalSchedule = [] ∧
    (calculateChitDetails P u).loanDetails = [] ∧
    (calculateChitDetails P u).memberReturns = [] := by
  have e : calculateChitDetails P u = emptyResult := by
    unfold calculateChitDetails
    rw [if_pos h]
  rw [e]
  exact ⟨rfl, rfl, rfl, rfl, rfl, rfl, rfl, rfl, rfl, rfl, rfl, rfl⟩

/-- Witness for C2 at totalMembers = 0. -/
theorem claim_C2_degenerate_witness :
    (calculateChitDetails
        { totalMembers := 0, monthlyContribution := 100, firstWithdrawal := 1000
          finalWithdrawal := 0, monthlyIncrement := 10
          commissionType := CommissionType.monthly, commissionRate := 5
          oneTimeCommission := 0, loanInterestRate := 2 } 50).duration = 0 ∧
    (calculateChitDetails
        { totalMembers := 0, monthlyContribution := 100, firstWithdrawal := 1000
          finalWithdrawal := 0, monthlyIncrement := 10
          commissionType := CommissionType.monthly, commissionRate := 5
          oneTimeCommission := 0, loanInterestRate := 2 } 50).totalPool = fin 0 ∧
    (calculateChitDetails
        { totalMembers := 0, monthlyContribution := 100, firstWithdrawal := 1000
          finalWithdrawal := 0, monthlyIncrement := 10
          commissionType := CommissionType.monthly, commissionRate := 5
          oneTimeCommission := 0, loanInterestRate := 2 } 50).commissionPerMonth = fin 0 ∧
    (calculateChitDetails
        { totalMembers := 0, monthlyContribution := 100, firstWithdrawal := 1000
          finalWithdrawal := 0, monthlyIncrement := 10
          commissionType := CommissionType.monthly, commissionRate := 5
          oneTimeCommission := 0, loanInterestRate := 2 } 50).totalCommission = fin 0 ∧
    (calculateChitDetails
        { totalMembers := 0, monthlyContribution := 100, firstWithdrawal := 1000
          finalWithdrawal := 0, monthlyIncrement := 10
          commissionType := CommissionType.monthly, commissionRate := 5
          oneTimeCommission := 0, loanInterestRate := 2 } 50).netPoolPerMonth = fin 0 ∧
    (calculateChitDetails
        { totalMembers := 0, monthlyContribution := 100, firstWithdrawal := 1000
          finalWithdrawal := 0, monthlyIncrement := 10
          commissionType := CommissionType.monthly, commissionRate := 5
          oneTimeCommission := 0, loanInterestRate := 2 } 50).totalMembersServed = fin 0 ∧
    (calculateChitDetails
        { totalMembers := 0, monthlyContribution := 100, firstWithdrawal := 1000
          finalWithdrawal := 0, monthlyIncrement := 10
          commissionType := CommissionType.monthly, commissionRate := 5
          oneTimeCommission := 0, loanInterestRate := 2 } 50).finalCarryOver = fin 0 ∧
    (calculateChitDetails
        { totalMembers := 0, monthlyContribution := 100, firstWithdrawal := 1000
          finalWithdrawal := 0, monthlyIncrement := 10
          commissionType := CommissionType.monthly, commissionRate := 5
          oneTimeCommission := 0, loanInterestRate := 2 } 50).totalLoanAmount = fin 0 ∧
    (calculateChitDetails
        { totalMembers := 0, monthlyContribution := 100, firstWithdrawal := 1000
          finalWithdrawal := 0, monthlyIncrement := 10
          commissionType := CommissionType.monthly, commissionRate := 5
          oneTimeCommission := 0, loanInterestRate := 2 } 50).totalInterestEarned = fin 0 ∧
    (calculateChitDetails
        { totalMembers := 0, monthlyContribution := 100, firstWithdrawal := 1000
          finalWithdrawal := 0, monthlyIncrement := 10
          commissionType := CommissionType.monthly, commissionRate := 5
          oneTimeCommission := 0, loanInterestRate := 2 } 50).withdrawalSchedule = [] ∧
    (calculateChitDetails
        { totalMembers := 0, monthlyContribution := 100, firstWithdrawal := 1000
          finalWithdrawal := 0, monthlyIncrement := 10
          commissionType := CommissionType.monthly, commissionRate := 5
          oneTimeCommission := 0, loanInterestRate := 2 } 50).loanDetails = [] ∧
    (calculateChitDetails
        { totalMembers := 0, monthlyContribution := 100, firstWithdrawal := 1000
          finalWithdrawal := 0, monthlyIncrement := 10
          commissionType := CommissionType.monthly, commissionRate := 5
          oneTimeCommission := 0, loanInterestRate := 2 } 50).memberReturns = [] :=
  claim_C2_degenerate _ _ (by decide)

/-- C6: for every loop state, the internal carry-over entering the next
period equals the current period's unrounded remainingPool minus loanAmount,
the pending repayment is tracked separately and re-enters as the next
period's effectiveCarryOver, and the month record reports only the rounded
copy of remainingPool: the rounding is never fed back into the state. -/
theorem claim_C6_carry_recurrence (P : CalcInputs) (u cm np : ℚ) (st : SimState) :
    (simStep P u cm np st).carryOverPool
      = jsub (monthCalc P u cm np st.i st.remainingMembers st.carryOverPool
          st.loanRepaymentDue).remainingPool
        (monthCalc P u cm np st.i st.remainingMembers st.carryOverPool
          st.loanRepaymentDue).loanAmount ∧
    (simStep P u cm np st).loanRepaymentDue
      = (monthCalc P u cm np st.i st.remainingMembers st.carryOverPool
          st.loanRepaymentDue).nextMonthRepayment ∧
    (monthCalc P u cm np (simStep P u cm np st).i (simStep P u cm np st).remainingMembers
        (simStep P u cm np st).carryOverPool
        (simStep P u cm np st).loanRepaymentDue).effectiveCarryOver
      = jadd (simStep P u cm np st).carryOverPool (simStep P u cm np st).loanRepaymentDue ∧
    ((simStep P u cm np st).schedule.getLast?).map (fun r => r.remainingPool)
      = some (jround (monthCalc P u cm np st.i st.remainingMembers st.carryOverPool
          st.loanRepaymentDue).remainingPool) := by
  refine ⟨rfl, rfl, rfl, ?_⟩
  simp only [simStep]
  rw [List.getLast?_concat]
  rfl

/-- C7 counterexample: with 2 members, contribution 100, per-period rate 10
and first withdrawal 50 the schedule settles in month 1, so the returned
duration is 1 while the returned totalCommission is 40 = commissionPerMonth
x totalMembers, not commissionPerMonth x duration = 20. -/
theorem claim_C7_counterexample :
    (let r := calculateChitDetails
        { totalMembers := 2, monthlyContribution := 100, firstWithdrawal := 50
          finalWithdrawal := 0, monthlyIncrement := 0
          commissionType := CommissionType.monthly, commissionRate := 10
          oneTimeCommission := 0, loanInterestRate := 2 } 50
     r.duration = 1 ∧ r.commissionPerMonth = fin 20 ∧ r.totalCommission = fin 40 ∧
       r.totalCommission ≠ jmul r.commissionPerMonth (fin (r.duration : ℚ))) :=
  of_decide_eq_true (by with_unfolding_all rfl)

/-- C7 amended: for totalMembers > 0 the reported commission fields are the
rounded values of: commissionPerMonth = totalPool x commissionRate / 100 and
totalCommission = commissionPerMonth x totalMembers for the per-period-rate
type, and commissionPerMonth = fixedCommissionTotal / totalMembers and
totalCommission = fixedCommissionTotal for the fixed-total type.  (The
source computes both from its loop bound totalMembers, not from the returned
duration, which is smaller whenever the schedule settles early.) -/
theorem claim_C7_amended (P : CalcInputs) (u : ℚ) (h : 0 < P.totalMembers) :
    (P.commissionType = CommissionType.monthly →
      (calculateChitDetails P u).commissionPerMonth
        = fin (roundQ ((P.totalMembers : ℚ) * P.monthlyContribution * P.commissionRate / 100)) ∧
      (calculateChitDetails P u).totalCommission
        = fin (roundQ ((P.totalMembers : ℚ) * P.monthlyContribution * P.commissionRate / 100
            * (P.totalMembers : ℚ)))) ∧
    (P.commissionType = CommissionType.oneTime →
      (calculateChitDetails P u).commissionPerMonth
        = fin (roundQ (P.oneTimeCommission / (P.totalMembers : ℚ))) ∧
      (calculateChitDetails P u).totalCommission = fin (roundQ P.oneTimeCommission)) := by
  have hne : ¬ P.totalMembers ≤ 0 := not_le.mpr h
  constructor
  · intro hty
    unfold calculateChitDetails
    rw [if_neg hne]
    simp only [commissionPerMonthQ, totalCommissionQ, hty]
    exact ⟨trivial, trivial⟩
  · intro hty
    unfold calculateChitDetails
    rw [if_neg hne]
    simp only [commissionPerMonthQ, totalCommissionQ, hty]
    exact ⟨trivial, trivial⟩

/-- Witness for the amended C7 on a per-period-rate input with 3 members. -/
theorem claim_C7_amended_witness :
    (calculateChitDetails
        { totalMembers := 3, monthlyContribution := 1000, firstWithdrawal := 900
          finalWithdrawal := 0, monthlyIncrement := 100
          commissionType := CommissionType.monthly, commissionRate := 5
          oneTimeCommission := 0, loanInterestRate := 2 } 50).commissionPerMonth
      = fin (roundQ (((3 : ℤ) : ℚ) * 1000 * 5 / 100)) ∧
    (calculateChitDetails
        { totalMembers := 3, monthlyContribution := 1000, firstWithdrawal := 900
          finalWithdrawal := 0, monthlyIncrement := 100
          commissionType := CommissionType.monthly, commissionRate := 5
          oneTimeCommission := 0, loanInterestRate := 2 } 50).totalCommission
      = fin (roundQ (((3 : ℤ) : ℚ) * 1000 * 5 / 100 * ((3 : ℤ) : ℚ))) := by
  have h := claim_C7_amended
    { totalMembers := 3, monthlyContribution := 1000, firstWithdrawal := 900
      finalWithdrawal := 0, monthlyIncrement := 100
      commissionType := CommissionType.monthly, commissionRate := 5
      oneTimeCommission := 0, loanInterestRate := 2 } 50 (by decide)
  exact ⟨(h.1 rfl).1, (h.1 rfl).2⟩

/-- C3 counterexample: with 2 members, contribution 100, no commission and a
first withdrawal of 1000000 the pool never covers a withdrawal, so the
schedule runs its full 2 months and the last month record still has
remainingMembersAfter = 2, not 0. -/
theorem claim_C3_counterexample :
    (let r := calculateChitDetails
        { totalMembers := 2, monthlyContribution := 100, firstWithdrawal := 1000000
          finalWithdrawal := 0, monthlyIncrement := 0
          commissionType := CommissionType.monthly, commissionRate := 0
          oneTimeCommission := 0, loanInterestRate := 2 } 50
     r.withdrawalSchedule.getLast?.map (fun m => (m.month, m.remainingMembersAfter))
         = some (2, fin 2) ∧
       ¬ r.withdrawalSchedule.getLast?.map (fun m => m.remainingMembersAfter)
         = some (fin 0)) :=
  of_decide_eq_true (by with_unfolding_all rfl)

/-- C5 counterexample: with 3 members, contribution 100, first withdrawal 250
and monthly increment -400 the second month record is flagged as a settlement
month (its withdrawal amount is negative, so remainingMembers x
withdrawalAmount < availablePool), yet its actualWithdrawals is -1, its
remainingMembersAfter is 3, and a third month record follows it: a
settlement-flagged record that neither clears the remaining members nor ends
the schedule. -/
theorem claim_C5_counterexample :
    (let r := calculateChitDetails
        { totalMembers := 3, monthlyContribution := 100, firstWithdrawal := 250
          finalWithdrawal := 0, monthlyIncrement := -400
          commissionType := CommissionType.monthly, commissionRate := 0
          oneTimeCommission := 0, loanInterestRate := 0 } 0
     r.withdrawalSchedule.length = 3 ∧
       (r.withdrawalSchedule[1]?).map
           (fun m => (m.isLastMonth, m.actualWithdrawals, m.remainingMembersAfter))
         = some (true, fin (-1), fin 3)) :=
  of_decide_eq_true (by with_unfolding_all rfl)

/-- C4 counterexample: with 1 member and firstWithdrawal = 0, increment 0,
the settlement branch zeroes the pool and the division availablePool /
withdrawalAmount is 0/0, so actualWithdrawals and totalMembersServed are NaN:
the returned totalMembersServed is not a (finite) number at all and
totalMembersServed ≤ totalMembers fails. -/
theorem claim_C4_counterexample :
    (calculateChitDetails
        { totalMembers := 1, monthlyContribution := 100, firstWithdrawal := 0
          finalWithdrawal := 0, monthlyIncrement := 0
          commissionType := CommissionType.monthly, commissionRate := 5
          oneTimeCommission := 0, loanInterestRate := 2 } 50).totalMembersServed = nan ∧
    jle (calculateChitDetails
        { totalMembers := 1, monthlyContribution := 100, firstWithdrawal := 0
          finalWithdrawal := 0, monthlyIncrement := 0
          commissionType := CommissionType.monthly, commissionRate := 5
          oneTimeCommission := 0, loanInterestRate := 2 } 50).totalMembersServed (fin 1)
      = false ∧
    ∀ q : ℚ, (calculateChitDetails
        { totalMembers := 1, monthlyContribution := 100, firstWithdrawal := 0
          finalWithdrawal := 0, monthlyIncrement := 0
          commissionType := CommissionType.monthly, commissionRate := 5
          oneTimeCommission := 0, loanInterestRate := 2 } 50).totalMembersServed ≠ fin q := by
  have h : (calculateChitDetails
      { totalMembers := 1, monthlyContribution := 100, firstWithdrawal := 0
        finalWithdrawal := 0, monthlyIncrement := 0
        commissionType := CommissionType.monthly, commissionRate := 5
        oneTimeCommission := 0, loanInterestRate := 2 } 50).totalMembersServed = nan := by
    with_unfolding_all rfl
  refine ⟨h, ?_, ?_⟩
  · rw [h]
    rfl
  · intro q
    rw [h]
    exact fun hc => JsNum.noConfusion hc

/-- C10 counterexample: with firstWithdrawal = 0 and monthlyIncrement = 0 (a
business-invalid input the claim explicitly includes) the division
availablePool / withdrawalAmount is 0/0 and NaN reaches several numeric
fields of the returned result; the output is not arithmetically
well-defined. -/
theorem claim_C10_counterexample :
    (let r := calculateChitDetails
        { totalMembers := 2, monthlyContribution := 100, firstWithdrawal := 0
          finalWithdrawal := 0, monthlyIncrement := 0
          commissionType := CommissionType.monthly, commissionRate := 5
          oneTimeCommission := 0, loanInterestRate := 2 } 50
     r.withdrawalSchedule.map (fun m => (m.remainingPool, m.remainingMembersAfter))
         = [(nan, nan)] ∧
       r.totalMembersServed = nan ∧ r.finalCarryOver = nan) :=
  of_decide_eq_true (by with_unfolding_all rfl)

/-- C9 counterexample: the one-element all-negative cash-flow sequence
[-0.000000001] has |NPV| below the tolerance at the very first Newton
iteration, so the solver returns the initial guess 0.01 instead of the
non-convergence signal. -/
theorem claim_C9_counterexample :
    calculateIRR [fin (-1/1000000000)] = some (fin (1/100)) ∧
      (-1/1000000000 : ℚ) < 0 :=
  of_decide_eq_true (by with_unfolding_all rfl)

/-- Witness for the amended C3: 2 members, contribution 100, no commission,
first withdrawal 90, increment 5, so the net pool 200 covers every month's
withdrawal. -/
theorem claim_C3_amended_witness :
    List.Chain' (fun a b => jle b.remainingMembersAfter a.remainingMembersAfter = true)
      (calculateChitDetails
        { totalMembers := 2, monthlyContribution := 100, firstWithdrawal := 90
          finalWithdrawal := 0, monthlyIncrement := 5
          commissionType := CommissionType.monthly, commissionRate := 0
          oneTimeCommission := 0, loanInterestRate := 2 } 50).withdrawalSchedule ∧
    ∃ r, (calculateChitDetails
        { totalMembers := 2, monthlyContribution := 100, firstWithdrawal := 90
          finalWithdrawal := 0, monthlyIncrement := 5
          commissionType := CommissionType.monthly, commissionRate := 0
          oneTimeCommission := 0, loanInterestRate := 2 } 50).withdrawalSchedule.getLast?
          = some r ∧
      r.remainingMembersAfter = fin 0 ∧ r.month ≤ (2 : ℤ).toNat := by
  have h := claim_C3_amended
    { totalMembers := 2, monthlyContribution := 100, firstWithdrawal := 90
      finalWithdrawal := 0, monthlyIncrement := 5
      commissionType := CommissionType.monthly, commissionRate := 0
      oneTimeCommission := 0, loanInterestRate := 2 } 50 (by decide) (by norm_num)
    (by norm_num) (of_decide_eq_true (by with_unfolding_all rfl)) (by norm_num)
    (by norm_num) (by norm_num)
  exact ⟨h.1, h.2 (of_decide_eq_true (by with_unfolding_all rfl))⟩

/-- Witness for the amended C4: 3 members, contribution 200, per-period rate
10, first withdrawal 100, increment 10. -/
theorem claim_C4_amended_witness :
    jsumActuals (calculateChitDetails
        { totalMembers := 3, monthlyContribution := 200, firstWithdrawal := 100
          finalWithdrawal := 0, monthlyIncrement := 10
          commissionType := CommissionType.monthly, commissionRate := 10
          oneTimeCommission := 0, loanInterestRate := 1 } 40).withdrawalSchedule
        = (calculateChitDetails
        { totalMembers := 3, monthlyContribution := 200, firstWithdrawal := 100
          finalWithdrawal := 0, monthlyIncrement := 10
          commissionType := CommissionType.monthly, commissionRate := 10
          oneTimeCommission := 0, loanInterestRate := 1 } 40).totalMembersServed ∧
    ∃ s : ℤ, (calculateChitDetails
        { totalMembers := 3, monthlyContribution := 200, firstWithdrawal := 100
          finalWithdrawal := 0, monthlyIncrement := 10
          commissionType := CommissionType.monthly, commissionRate := 10
          oneTimeCommission := 0, loanInterestRate := 1 } 40).totalMembersServed
        = fin (s : ℚ) ∧ s ≤ 3 := by
  have h := claim_C4_amended
    { totalMembers := 3, monthlyContribution := 200, firstWithdrawal := 100
      finalWithdrawal := 0, monthlyIncrement := 10
      commissionType := CommissionType.monthly, commissionRate := 10
      oneTimeCommission := 0, loanInterestRate := 1 } 40 (by decide)
  exact ⟨h.1, h.2 (by norm_num) (by norm_num)
    (of_decide_eq_true (by with_unfolding_all rfl)) (by norm_num) (by norm_num) (by norm_num)⟩

/-- Witness for the amended C5: 2 members, contribution 100, no commission,
first withdrawal 50, so month 1 is a settlement month that pays out both
members, and it is the last record with remainingMembersAfter 0. -/
theorem claim_C5_amended_witness :
    0 + 1 = (calculateChitDetails
        { totalMembers := 2, monthlyContribution := 100, firstWithdrawal := 50
          finalWithdrawal := 0, monthlyIncrement := 0
          commissionType := CommissionType.monthly, commissionRate := 0
          oneTimeCommission := 0, loanInterestRate := 2 } 50).withdrawalSchedule.length ∧
    ({ month := 1, withdrawalAmount := fin 50, contributionPerMember := fin 50
       newContributions := fin 100, carryOverFromPrevious := fin 0
       availablePool := fin 100, actualWithdrawals := fin 2, totalWithdrawn := fin 100
       remainingPool := fin 0, remainingMembersAfter := fin 0
       isLastMonth := true } : MonthRecord).remainingMembersAfter = fin 0 :=
  claim_C5_amended
    { totalMembers := 2, monthlyContribution := 100, firstWithdrawal := 50
      finalWithdrawal := 0, monthlyIncrement := 0
      commissionType := CommissionType.monthly, commissionRate := 0
      oneTimeCommission := 0, loanInterestRate := 2 } 50 (by decide) (by norm_num)
    (by norm_num) (of_decide_eq_true (by with_unfolding_all rfl)) (by norm_num)
    (by norm_num) (by norm_num) 0
    { month := 1, withdrawalAmount := fin 50, contributionPerMember := fin 50
      newContributions := fin 100, carryOverFromPrevious := fin 0
      availablePool := fin 100, actualWithdrawals := fin 2, totalWithdrawn := fin 100
      remainingPool := fin 0, remainingMembersAfter := fin 0
      isLastMonth := true }
    (by with_unfolding_all rfl) rfl

/-- Witness for the amended C10: 2 members, contribution 150, per-period
rate 5, first withdrawal 120, increment 30. -/
theorem claim_C10_amended_witness :
    (calculateChitDetails
        { totalMembers := 2, monthlyContribution := 150, firstWithdrawal := 120
          finalWithdrawal := 0, monthlyIncrement := 30
          commissionType := CommissionType.monthly, commissionRate := 5
          oneTimeCommission := 0, loanInterestRate := 3 } 60).totalMembersServed.isFin ∧
    (calculateChitDetails
        { totalMembers := 2, monthlyContribution := 150, firstWithdrawal := 120
          finalWithdrawal := 0, monthlyIncrement := 30
          commissionType := CommissionType.monthly, commissionRate := 5
          oneTimeCommission := 0, loanInterestRate := 3 } 60).finalCarryOver.isFin ∧
    (calculateChitDetails
        { totalMembers := 2, monthlyContribution := 150, firstWithdrawal := 120
          finalWithdrawal := 0, monthlyIncrement := 30
          commissionType := CommissionType.monthly, commissionRate := 5
          oneTimeCommission := 0, loanInterestRate := 3 } 60).totalLoanAmount.isFin := by
  have h := claim_C10_amended
    { totalMembers := 2, monthlyContribution := 150, firstWithdrawal := 120
      finalWithdrawal := 0, monthlyIncrement := 30
      commissionType := CommissionType.monthly, commissionRate := 5
      oneTimeCommission := 0, loanInterestRate := 3 } 60 (by decide) (by norm_num)
    (by norm_num) (of_decide_eq_true (by with_unfolding_all rfl)) (by norm_num)
    (by norm_num) (by norm_num)
  exact ⟨h.2.2.2.2.2.2.1, h.2.2.2.2.2.2.2.1, h.2.2.2.2.2.2.2.2.1⟩

theorem npvGo_fin (ρ : ℚ) (qs : List ℚ) (t : ℕ) (acc : ℚ) (h : (1:ℚ) + ρ ≠ 0) :
    npvGo (fin ρ) (qs.map fin) t (fin acc) = fin (npvRat ρ qs t acc) := by
  induction qs generalizing t acc with
  | nil => rfl
  | cons c cs ih =>
    simp only [List.map_cons, npvGo, npvRat]
    rw [jadd_fin, jpow_fin, jdiv_fin _ _ (pow_ne_zero _ h), jadd_fin]
    exact ih _ _

theorem irrGo_fin (ρ : ℚ) (qs : List ℚ) (t : ℕ) (a1 a2 : ℚ) (h : (1:ℚ) + ρ ≠ 0) :
    irrGo (fin ρ) (qs.map fin) t (fin a1, fin a2)
      = (fin (npvRat ρ qs t a1), fin (dnpvRat ρ qs t a2)) := by
  induction qs generalizing t a1 a2 with
  | nil => rfl
  | cons c cs ih =>
    simp only [List.map_cons, irrGo, npvRat, dnpvRat]
    rw [jadd_fin, jpow_fin, jdiv_fin _ _ (pow_ne_zero _ h), jadd_fin,
      jpow_fin, jmul_fin, jdiv_fin _ _ (pow_ne_zero _ h), jsub_fin]
    exact ih _ _ _

theorem npvRat_le_acc (ρ : ℚ) (hρ : 0 < 1 + ρ) :
    ∀ (qs : List ℚ) (t : ℕ) (acc : ℚ), (∀ q ∈ qs, q ≤ 0) →
      npvRat ρ qs t acc ≤ acc := by
  intro qs
  induction qs with
  | nil => intro t acc _; exact le_refl _
  | cons c cs ih =>
    intro t acc hq
    simp only [npvRat]
    have h1 : c / (1 + ρ) ^ t ≤ 0 :=
      div_nonpos_of_nonpos_of_nonneg (hq c (by simp)) (le_of_lt (pow_pos hρ t))
    have h2 := ih (t + 1) (acc + c / (1 + ρ) ^ t) (fun q hmem => hq q (by simp [hmem]))
    linarith

theorem npvRat_ge_acc (ρ : ℚ) (hρ : 0 < 1 + ρ) :
    ∀ (qs : List ℚ) (t : ℕ) (acc : ℚ), (∀ q ∈ qs, 0 ≤ q) →
      acc ≤ npvRat ρ qs t acc := by
  intro qs
  induction qs with
  | nil => intro t acc _; exact le_refl _
  | cons c cs ih =>
    intro t acc hq
    simp only [npvRat]
    have h1 : 0 ≤ c / (1 + ρ) ^ t :=
      div_nonneg (hq c (by simp)) (le_of_lt (pow_pos hρ t))
    have h2 := ih (t + 1) (acc + c / (1 + ρ) ^ t) (fun q hmem => hq q (by simp [hmem]))
    linarith

theorem newton_never (qs : List ℚ)
    (H : ∀ ρ : ℚ, -99/100 ≤ ρ → ρ ≤ 10 → tolerance ≤ |npvRat ρ qs 0 0|) :
    ∀ (k : ℕ) (ρ : ℚ), -99/100 ≤ ρ → ρ ≤ 10 →
      newtonPhase (qs.map fin) k (fin ρ) = none := by
  intro k
  induction k with
  | zero => intro ρ _ _; rfl
  | succ j ih =>
    intro ρ hbl hbh
    have hρ : (0:ℚ) < 1 + ρ := by linarith
    have hρne : (1:ℚ) + ρ ≠ 0 := ne_of_gt hρ
    simp only [newtonPhase]
    rw [irrGo_fin ρ qs 0 0 0 hρne]
    have htest : jlt (jabs (fin (npvRat ρ qs 0 0))) (fin tolerance) = false := by
      rw [jabs_fin, jlt_fin]
      simp only [decide_eq_false_iff_not, not_lt]
      exact H ρ hbl hbh
    rw [htest]
    simp only [Bool.false_eq_true, if_false]
    by_cases hd : jlt (jabs (fin (dnpvRat ρ qs 0 0))) (fin tolerance) = true
    · rw [if_pos hd]
    · rw [if_neg hd]
      have hdne : dnpvRat ρ qs 0 0 ≠ 0 := by
        rw [jabs_fin, jlt_fin] at hd
        simp only [decide_eq_true_eq, not_lt] at hd
        intro hc
        rw [hc] at hd
        simp [tolerance] at hd
        linarith
      rw [jdiv_fin _ _ hdne, jsub_fin]
      by_cases hc1 : jlt (fin (ρ - npvRat ρ qs 0 0 / dnpvRat ρ qs 0 0)) (fin (-99/100)) = true
      · rw [if_pos hc1]
        exact ih (-1/2) (by norm_num) (by norm_num)
      · rw [if_neg hc1]
        by_cases hc2 : jlt (fin 10) (fin (ρ - npvRat ρ qs 0 0 / dnpvRat ρ qs 0 0)) = true
        · rw [if_pos hc2]
          exact ih 1 (by norm_num) (by norm_num)
        · rw [if_neg hc2]
          rw [jlt_fin] at hc1 hc2
          simp only [decide_eq_true_eq, not_lt] at hc1 hc2
          exact ih _ hc1 hc2

theorem bisect_never (qs : List ℚ)
    (H : ∀ ρ : ℚ, -99/100 ≤ ρ → ρ ≤ 10 → tolerance ≤ |npvRat ρ qs 0 0|) :
    ∀ (k : ℕ) (l h : ℚ), -99/100 ≤ l → l ≤ 10 → -99/100 ≤ h → h ≤ 10 →
      bisectPhase (qs.map fin) k (fin l) (fin h) = none := by
  intro k
  induction k with
  | zero => intro l h _ _ _ _; rfl
  | succ j ih =>
    intro l h hl1 hl2 hh1 hh2
    have hm1 : -99/100 ≤ (l + h) / 2 := by linarith
    have hm2 : (l + h) / 2 ≤ 10 := by linarith
    have hmne : (0:ℚ) < 1 + (l + h) / 2 := by linarith
    simp only [bisectPhase]
    rw [jadd_fin, jdiv_fin _ _ (by norm_num : (2:ℚ) ≠ 0),
      npvGo_fin _ _ _ _ (ne_of_gt hmne)]
    have htest : jlt (jabs (fin (npvRat ((l + h) / 2) qs 0 0))) (fin tolerance) = false := by
      rw [jabs_fin, jlt_fin]
      simp only [decide_eq_false_iff_not, not_lt]
      exact H _ hm1 hm2
    rw [htest]
    simp only [Bool.false_eq_true, if_false]
    rw [npvGo_fin _ _ _ _ (by linarith : (1:ℚ) + l ≠ 0)]
    by_cases hc : jlt (fin 0) (jmul (fin (npvRat l qs 0 0))
        (fin (npvRat ((l + h) / 2) qs 0 0))) = true
    · rw [if_pos hc]
      exact ih _ _ hm1 hm2 hh1 hh2
    · rw [if_neg hc]
      exact ih _ _ hl1 hl2 hm1 hm2

/-- C9 amended: the solver returns the non-convergence signal for every
nonempty cash-flow sequence whose entries are all at most -tolerance, and
for every nonempty sequence whose entries are all at least tolerance.  (For
entries smaller than the tolerance in magnitude the first |NPV| test can
succeed immediately: see the counterexample.) -/
theorem claim_C9_amended (c : ℚ) (qs : List ℚ) :
    ((∀ q ∈ c :: qs, q ≤ -tolerance) → calculateIRR ((c :: qs).map fin) = none) ∧
    ((∀ q ∈ c :: qs, tolerance ≤ q) → calculateIRR ((c :: qs).map fin) = none) := by
  have htolpos : (0:ℚ) < tolerance := by norm_num [tolerance]
  constructor
  · intro hneg
    have H : ∀ ρ : ℚ, -99/100 ≤ ρ → ρ ≤ 10 → tolerance ≤ |npvRat ρ (c :: qs) 0 0| := by
      intro ρ h1 h2
      have hρ : (0:ℚ) < 1 + ρ := by linarith
      have hstart : npvRat ρ (c :: qs) 0 0 = npvRat ρ qs 1 c := by
        simp [npvRat]
      have hle : npvRat ρ qs 1 c ≤ c :=
        npvRat_le_acc ρ hρ qs 1 c
          (fun q hq => le_trans (hneg q (by simp [hq])) (by norm_num [tolerance]))
      have hc' : c ≤ -tolerance := hneg c (by simp)
      rw [hstart, abs_of_nonpos (by linarith)]
      linarith
    show (match newtonPhase ((c :: qs).map fin) maxIterations (fin (1/100)) with
      | some r => some r
      | none => bisectPhase ((c :: qs).map fin) maxIterations (fin (-99/100)) (fin 10)) = none
    rw [newton_never (c :: qs) H maxIterations (1/100) (by norm_num) (by norm_num)]
    exact bisect_never (c :: qs) H maxIterations (-99/100) 10 (by norm_num) (by norm_num)
      (by norm_num) (by norm_num)
  · intro hpos
    have H : ∀ ρ : ℚ, -99/100 ≤ ρ → ρ ≤ 10 → tolerance ≤ |npvRat ρ (c :: qs) 0 0| := by
      intro ρ h1 h2
      have hρ : (0:ℚ) < 1 + ρ := by linarith
      have hstart : npvRat ρ (c :: qs) 0 0 = npvRat ρ qs 1 c := by
        simp [npvRat]
      have hge : c ≤ npvRat ρ qs 1 c :=
        npvRat_ge_acc ρ hρ qs 1 c
          (fun q hq => le_trans (by norm_num [tolerance]) (hpos q (by simp [hq])))
      have hc' : tolerance ≤ c := hpos c (by simp)
      rw [hstart, abs_of_nonneg (by linarith)]
      linarith
    show (match newtonPhase ((c :: qs).map fin) maxIterations (fin (1/100)) with
      | some r => some r
      | none => bisectPhase ((c :: qs).map fin) maxIterations (fin (-99/100)) (fin 10)) = none
    rw [newton_never (c :: qs) H maxIterations (1/100) (by norm_num) (by norm_num)]
    exact bisect_never (c :: qs) H maxIterations (-99/100) 10 (by norm_num) (by norm_num)
      (by norm_num) (by norm_num)

/-- Witness for the amended C9 on the one-element sequences [-5] and [5]. -/
theorem claim_C9_amended_witness :
    calculateIRR ([(-5 : ℚ)].map fin) = none ∧ calculateIRR ([(5 : ℚ)].map fin) = none :=
  ⟨(claim_C9_amended (-5) []).1 (by
      intro q hq
      simp at hq
      rw [hq]
      norm_num [tolerance]),
   (claim_C9_amended 5 []).2 (by
      intro q hq
      simp at hq
      rw [hq]
      norm_num [tolerance])⟩

theorem newton_some (qs : List ℚ) :
    ∀ (k : ℕ) (ρ : ℚ), -99/100 ≤ ρ → ρ ≤ 10 →
      ∀ v, newtonPhase (qs.map fin) k (fin ρ) = some v →
      ∃ w : ℚ, v = fin w ∧ -99/100 ≤ w ∧ w ≤ 10 ∧ |npvRat w qs 0 0| < tolerance := by
  intro k
  induction k with
  | zero => intro ρ _ _ v hv; exact absurd hv (by simp [newtonPhase])
  | succ j ih =>
    intro ρ hbl hbh v hv
    have hρne : (1:ℚ) + ρ ≠ 0 := by
      intro hc
      have : ρ = -1 := by linarith
      rw [this] at hbl
      norm_num at hbl
    simp only [newtonPhase] at hv
    rw [irrGo_fin ρ qs 0 0 0 hρne] at hv
    by_cases ht : jlt (jabs (fin (npvRat ρ qs 0 0))) (fin tolerance) = true
    · rw [if_pos ht] at hv
      refine ⟨ρ, (Option.some.inj hv).symm, hbl, hbh, ?_⟩
      rw [jabs_fin, jlt_fin] at ht
      exact of_decide_eq_true ht
    · rw [if_neg ht] at hv
      by_cases hd : jlt (jabs (fin (dnpvRat ρ qs 0 0))) (fin tolerance) = true
      · rw [if_pos hd] at hv
        exact absurd hv (by simp)
      · rw [if_neg hd] at hv
        have hdne : dnpvRat ρ qs 0 0 ≠ 0 := by
          rw [jabs_fin, jlt_fin] at hd
          simp only [decide_eq_true_eq, not_lt] at hd
          intro hc
          rw [hc] at hd
          simp [tolerance] at hd
          linarith
        rw [jdiv_fin _ _ hdne, jsub_fin] at hv
        by_cases hc1 : jlt (fin (ρ - npvRat ρ qs 0 0 / dnpvRat ρ qs 0 0))
            (fin (-99/100)) = true
        · rw [if_pos hc1] at hv
          exact ih (-1/2) (by norm_num) (by norm_num) v hv
        · rw [if_neg hc1] at hv
          by_cases hc2 : jlt (fin 10)
              (fin (ρ - npvRat ρ qs 0 0 / dnpvRat ρ qs 0 0)) = true
          · rw [if_pos hc2] at hv
            exact ih 1 (by norm_num) (by norm_num) v hv
          · rw [if_neg hc2] at hv
            rw [jlt_fin] at hc1 hc2
            simp only [decide_eq_true_eq, not_lt] at hc1 hc2
            exact ih _ hc1 hc2 v hv

theorem bisect_some (qs : List ℚ) :
    ∀ (k : ℕ) (l h : ℚ), -99/100 ≤ l → l ≤ 10 → -99/100 ≤ h → h ≤ 10 →
      ∀ v, bisectPhase (qs.map fin) k (fin l) (fin h) = some v →
      ∃ w : ℚ, v = fin w ∧ -99/100 ≤ w ∧ w ≤ 10 ∧ |npvRat w qs 0 0| < tolerance := by
  intro k
  induction k with
  | zero => intro l h _ _ _ _ v hv; exact absurd hv (by simp [bisectPhase])
  | succ j ih =>
    intro l h hl1 hl2 hh1 hh2 v hv
    have hm1 : -99/100 ≤ (l + h) / 2 := by linarith
    have hm2 : (l + h) / 2 ≤ 10 := by linarith
    have hmne : (1:ℚ) + (l + h) / 2 ≠ 0 := by
      intro hc
      nlinarith
    simp only [bisectPhase] at hv
    rw [jadd_fin, jdiv_fin _ _ (by norm_num : (2:ℚ) ≠ 0),
      npvGo_fin _ _ _ _ hmne] at hv
    by_cases ht : jlt (jabs (fin (npvRat ((l + h) / 2) qs 0 0))) (fin tolerance) = true
    · rw [if_pos ht] at hv
      refine ⟨(l + h) / 2, (Option.some.inj hv).symm, hm1, hm2, ?_⟩
      rw [jabs_fin, jlt_fin] at ht
      exact of_decide_eq_true ht
    · rw [if_neg ht] at hv
      rw [npvGo_fin _ _ _ _ (by intro hc; nlinarith : (1:ℚ) + l ≠ 0)] at hv
      by_cases hc : jlt (fin 0) (jmul (fin (npvRat l qs 0 0))
          (fin (npvRat ((l + h) / 2) qs 0 0))) = true
      · rw [if_pos hc] at hv
        exact ih _ _ hm1 hm2 hh1 hh2 v hv
      · rw [if_neg hc] at hv
        exact ih _ _ hl1 hl2 hm1 hm2 v hv

theorem npvRat_roundTrip (ρ r : ℚ) :
    npvRat ρ (roundTripFlows r) 0 0 = -100 + 100 * (1 + r) ^ 3 / (1 + ρ) ^ 3 := by
  simp [npvRat, roundTripFlows]

theorem root_close (r w : ℚ) (hr1 : -99/100 < r) (hr2 : r < 10)
    (hw1 : -99/100 ≤ w) (hw2 : w ≤ 10)
    (hnpv : |(-100 : ℚ) + 100 * (1 + r) ^ 3 / (1 + w) ^ 3| < tolerance) :
    |w - r| < tolerance := by
  have ha : (0:ℚ) < 1 + w := by linarith
  have hb : (0:ℚ) < 1 + r := by linarith
  have hb11 : (1:ℚ) + r < 11 := by linarith
  have ha3 : (0:ℚ) < (1 + w) ^ 3 := pow_pos ha 3
  have hb3 : (0:ℚ) < (1 + r) ^ 3 := pow_pos hb 3
  have habs := abs_lt.mp hnpv
  have h1 : 100 * (1 + r) ^ 3 / (1 + w) ^ 3 < 100 + tolerance := by
    have := habs.2
    linarith
  have h2 : 100 - tolerance < 100 * (1 + r) ^ 3 / (1 + w) ^ 3 := by
    have := habs.1
    linarith
  have h1' : 100 * (1 + r) ^ 3 < (100 + tolerance) * (1 + w) ^ 3 :=
    (div_lt_iff₀ ha3).mp h1
  have h2' : (100 - tolerance) * (1 + w) ^ 3 < 100 * (1 + r) ^ 3 := by
    have := (lt_div_iff₀ ha3).mp h2
    linarith
  -- upper bound: (1 + w) < (1 + r) * (1 + 1/1000000000)
  have hup : 1 + w < (1 + r) * (1 + 1/1000000000) := by
    by_contra hcon
    push_neg at hcon
    have hcube : ((1 + r) * (1 + 1/1000000000)) ^ 3 ≤ (1 + w) ^ 3 := by
      apply pow_le_pow_left (by positivity) hcon
    have hnum : (100 : ℚ) ≤ (100 - tolerance) * (1 + 1/1000000000) ^ 3 := by
      norm_num [tolerance]
    nlinarith
  -- lower bound: (1 + r) * (1 - 1/1000000000) < 1 + w
  have hlo : (1 + r) * (1 - 1/1000000000) < 1 + w := by
    by_contra hcon
    push_neg at hcon
    have hcube : (1 + w) ^ 3 ≤ ((1 + r) * (1 - 1/1000000000)) ^ 3 := by
      apply pow_le_pow_left (le_of_lt ha) hcon
    have hnum : ((100 : ℚ) + tolerance) * (1 - 1/1000000000) ^ 3 ≤ 100 := by
      norm_num [tolerance]
    nlinarith
  have ht : tolerance = (1:ℚ)/10000000 := rfl
  rw [abs_lt]
  constructor
  · nlinarith
  · nlinarith

theorem rt_pos_of_lt (r x : ℚ) (hx1 : -99/100 ≤ x) (hxr : x < r) :
    0 < npvRat x (roundTripFlows r) 0 0 := by
  rw [npvRat_roundTrip]
  have ha : (0:ℚ) < 1 + x := by linarith
  have ha3 : (0:ℚ) < (1 + x) ^ 3 := pow_pos ha 3
  have hp : (1 + x) ^ 3 < (1 + r) ^ 3 :=
    pow_lt_pow_left (by linarith) (le_of_lt ha) (by norm_num)
  have : (100:ℚ) < 100 * (1 + r) ^ 3 / (1 + x) ^ 3 := by
    rw [lt_div_iff₀ ha3]
    nlinarith
  linarith

theorem rt_nonpos_of_ge (r x : ℚ) (hr1 : -99/100 ≤ r) (hrx : r ≤ x) :
    npvRat x (roundTripFlows r) 0 0 ≤ 0 := by
  rw [npvRat_roundTrip]
  have ha : (0:ℚ) < 1 + x := by linarith
  have ha3 : (0:ℚ) < (1 + x) ^ 3 := pow_pos ha 3
  have hp : (1 + r) ^ 3 ≤ (1 + x) ^ 3 :=
    pow_le_pow_left (by linarith) (by linarith) 3
  have : 100 * (1 + r) ^ 3 / (1 + x) ^ 3 ≤ 100 := by
    rw [div_le_iff₀ ha3]
    nlinarith
  linarith

theorem rt_nonneg_of_le (r x : ℚ) (hx1 : -99/100 ≤ x) (hxr : x ≤ r) :
    0 ≤ npvRat x (roundTripFlows r) 0 0 := by
  rw [npvRat_roundTrip]
  have ha : (0:ℚ) < 1 + x := by linarith
  have ha3 : (0:ℚ) < (1 + x) ^ 3 := pow_pos ha 3
  have hp : (1 + x) ^ 3 ≤ (1 + r) ^ 3 :=
    pow_le_pow_left (le_of_lt ha) (by linarith) 3
  have : (100:ℚ) ≤ 100 * (1 + r) ^ 3 / (1 + x) ^ 3 := by
    rw [le_div_iff₀ ha3]
    nlinarith
  linarith

theorem rt_small (r x : ℚ) (hr1 : -99/100 < r) (hr2 : r < 10)
    (hx1 : -99/100 ≤ x) (hx2 : x ≤ 10)
    (hclose : |x - r| < 1/400000000000000000) :
    |npvRat x (roundTripFlows r) 0 0| < tolerance := by
  rw [npvRat_roundTrip]
  have ha : (0:ℚ) < 1 + x := by linarith
  have hb : (0:ℚ) < 1 + r := by linarith
  have ha0 : (1:ℚ) + x ≠ 0 := ne_of_gt ha
  have ha3 : (0:ℚ) < (1 + x) ^ 3 := pow_pos ha 3
  have ha3' : (1:ℚ)/1000000 ≤ (1 + x) ^ 3 := by
    have h100 : (1:ℚ)/100 ≤ 1 + x := by linarith
    have hc := pow_le_pow_left (by norm_num : (0:ℚ) ≤ 1/100) h100 3
    norm_num at hc
    linarith
  have h363 : (1 + x) ^ 2 + (1 + x) * (1 + r) + (1 + r) ^ 2 ≤ 363 := by nlinarith
  have hpos : (0:ℚ) ≤ (1 + x) ^ 2 + (1 + x) * (1 + r) + (1 + r) ^ 2 := by positivity
  have habd : |(1 + r) - (1 + x)| < 1/400000000000000000 := by
    have : (1 + r) - (1 + x) = -(x - r) := by ring
    rw [this, abs_neg]
    exact hclose
  have hd := abs_lt.mp habd
  have hub : 100 * ((1 + r) ^ 3 - (1 + x) ^ 3) < tolerance * (1 + x) ^ 3 := by
    have h1 : (1 + r) ^ 3 - (1 + x) ^ 3
        = ((1 + r) - (1 + x)) * ((1 + x) ^ 2 + (1 + x) * (1 + r) + (1 + r) ^ 2) := by
      ring
    have h2 : ((1 + r) - (1 + x)) * ((1 + x) ^ 2 + (1 + x) * (1 + r) + (1 + r) ^ 2)
        ≤ |(1 + r) - (1 + x)| * 363 := by
      calc ((1 + r) - (1 + x)) * ((1 + x) ^ 2 + (1 + x) * (1 + r) + (1 + r) ^ 2)
          ≤ |(1 + r) - (1 + x)| * ((1 + x) ^ 2 + (1 + x) * (1 + r) + (1 + r) ^ 2) :=
            mul_le_mul_of_nonneg_right (le_abs_self _) hpos
        _ ≤ |(1 + r) - (1 + x)| * 363 :=
            mul_le_mul_of_nonneg_left h363 (abs_nonneg _)
    have h3 : |(1 + r) - (1 + x)| * 363 < 363/400000000000000000 := by
      have := abs_nonneg ((1 + r) - (1 + x))
      nlinarith
    have ht : tolerance = (1:ℚ)/10000000 := rfl
    rw [h1]
    nlinarith
  have hlb : -(tolerance * (1 + x) ^ 3) < 100 * ((1 + r) ^ 3 - (1 + x) ^ 3) := by
    have h1 : (1 + r) ^ 3 - (1 + x) ^ 3
        = ((1 + r) - (1 + x)) * ((1 + x) ^ 2 + (1 + x) * (1 + r) + (1 + r) ^ 2) := by
      ring
    have h2 : -(|(1 + r) - (1 + x)| * 363)
        ≤ ((1 + r) - (1 + x)) * ((1 + x) ^ 2 + (1 + x) * (1 + r) + (1 + r) ^ 2) := by
      calc -(|(1 + r) - (1 + x)| * 363)
          ≤ -(|(1 + r) - (1 + x)| * ((1 + x) ^ 2 + (1 + x) * (1 + r) + (1 + r) ^ 2)) := by
            exact neg_le_neg (mul_le_mul_of_nonneg_left h363 (abs_nonneg _))
        _ = (-|(1 + r) - (1 + x)|) * ((1 + x) ^ 2 + (1 + x) * (1 + r) + (1 + r) ^ 2) := by
            ring
        _ ≤ ((1 + r) - (1 + x)) * ((1 + x) ^ 2 + (1 + x) * (1 + r) + (1 + r) ^ 2) :=
            mul_le_mul_of_nonneg_right (neg_abs_le _) hpos
    have h3 : |(1 + r) - (1 + x)| * 363 < 363/400000000000000000 := by
      have := abs_nonneg ((1 + r) - (1 + x))
      nlinarith
    have ht : tolerance = (1:ℚ)/10000000 := rfl
    rw [h1]
    nlinarith
  have heq : (-100:ℚ) + 100 * (1 + r) ^ 3 / (1 + x) ^ 3
      = (100 * ((1 + r) ^ 3 - (1 + x) ^ 3)) / (1 + x) ^ 3 := by
    field_simp
    ring
  rw [heq, abs_lt]
  constructor
  · rw [neg_lt, ← neg_div]
    rw [div_lt_iff₀ ha3]
    linarith
  · rw [div_lt_iff₀ ha3]
    linarith

theorem bisectPhase_succ (cf : List JsNum) (k : ℕ) (low high : JsNum) :
    bisectPhase cf (k + 1) low high =
      (if jlt (jabs (npvGo (jdiv (jadd low high) (fin 2)) cf 0 (fin 0)))
          (fin tolerance)
        then some (jdiv (jadd low high) (fin 2))
        else if jlt (fin 0) (jmul (npvGo low cf 0 (fin 0))
            (npvGo (jdiv (jadd low high) (fin 2)) cf 0 (fin 0)))
          then bisectPhase cf k (jdiv (jadd low high) (fin 2)) high
          else bisectPhase cf k low (jdiv (jadd low high) (fin 2))) := rfl

theorem bisect_succeeds (r : ℚ) (hr1 : -99/100 < r) (hr2 : r < 10) :
    ∀ (k : ℕ) (l h : ℚ), -99/100 ≤ l → l < r → r < h → h ≤ 10 →
      h - l < 1/400000000000000000 * 2 ^ k →
      ∃ v, bisectPhase ((roundTripFlows r).map fin) (k + 1) (fin l) (fin h) = some v := by
  intro k
  induction k with
  | zero =>
    intro l h hl1 hlr hrh hh2 hw
    have hw' : h - l < 1/400000000000000000 := by rw [pow_zero, mul_one] at hw; exact hw
    have hm1 : -99/100 ≤ (l + h) / 2 := by linarith
    have hm2 : (l + h) / 2 ≤ 10 := by linarith
    have hmne : (1:ℚ) + (l + h) / 2 ≠ 0 := by intro hc; linarith
    have hclose : |(l + h) / 2 - r| < 1/400000000000000000 := by
      rw [abs_lt]
      constructor <;> linarith
    have hsmall := rt_small r ((l + h) / 2) hr1 hr2 hm1 hm2 hclose
    have hcond : jlt (jabs (fin (npvRat ((l + h) / 2) (roundTripFlows r) 0 0)))
        (fin tolerance) = true := by
      rw [jabs_fin, jlt_fin]
      exact decide_eq_true hsmall
    refine ⟨fin ((l + h) / 2), ?_⟩
    rw [bisectPhase_succ, jadd_fin, jdiv_fin _ _ (by norm_num : (2:ℚ) ≠ 0), npvGo_fin _ _ _ _ hmne,
      if_pos hcond]
  | succ j ih =>
    intro l h hl1 hlr hrh hh2 hw
    have hw' : h - l < 2 * (1/400000000000000000 * 2 ^ j) := by
      rw [pow_succ] at hw
      linarith
    have hm1 : -99/100 ≤ (l + h) / 2 := by linarith
    have hm2 : (l + h) / 2 ≤ 10 := by linarith
    have hmne : (1:ℚ) + (l + h) / 2 ≠ 0 := by intro hc; linarith
    have hlne : (1:ℚ) + l ≠ 0 := by intro hc; linarith
    by_cases hc : jlt (jabs (fin (npvRat ((l + h) / 2) (roundTripFlows r) 0 0)))
        (fin tolerance) = true
    · refine ⟨fin ((l + h) / 2), ?_⟩
      rw [bisectPhase_succ, jadd_fin, jdiv_fin _ _ (by norm_num : (2:ℚ) ≠ 0), npvGo_fin _ _ _ _ hmne,
        if_pos hc]
    · have hc2 := hc
      rw [jabs_fin, jlt_fin] at hc2
      have htol : tolerance ≤ |npvRat ((l + h) / 2) (roundTripFlows r) 0 0| :=
        not_lt.mp (fun hlt => hc2 (decide_eq_true hlt))
      have hfm_ne : npvRat ((l + h) / 2) (roundTripFlows r) 0 0 ≠ 0 := by
        intro h0
        rw [h0] at htol
        norm_num [tolerance] at htol
      have hfl : 0 < npvRat l (roundTripFlows r) 0 0 := rt_pos_of_lt r l hl1 hlr
      by_cases hs : jlt (fin 0) (jmul (fin (npvRat l (roundTripFlows r) 0 0))
          (fin (npvRat ((l + h) / 2) (roundTripFlows r) 0 0))) = true
      · have hs2 := hs
        rw [jmul_fin, jlt_fin] at hs2
        have hprod : 0 < npvRat l (roundTripFlows r) 0 0
            * npvRat ((l + h) / 2) (roundTripFlows r) 0 0 := of_decide_eq_true hs2
        have hfm : 0 < npvRat ((l + h) / 2) (roundTripFlows r) 0 0 := by
          by_contra hnp
          push_neg at hnp
          nlinarith
        have hmr : (l + h) / 2 < r := by
          by_contra hge
          push_neg at hge
          have := rt_nonpos_of_ge r ((l + h) / 2) (le_of_lt hr1) hge
          linarith
        obtain ⟨v, hv⟩ := ih ((l + h) / 2) h hm1 hmr hrh hh2 (by linarith)
        refine ⟨v, ?_⟩
        rw [bisectPhase_succ, jadd_fin, jdiv_fin _ _ (by norm_num : (2:ℚ) ≠ 0), npvGo_fin _ _ _ _ hmne,
          if_neg hc, npvGo_fin _ _ _ _ hlne, if_pos hs]
        exact hv
      · have hnprod : ¬(0 < npvRat l (roundTripFlows r) 0 0
            * npvRat ((l + h) / 2) (roundTripFlows r) 0 0) := by
          rw [jmul_fin, jlt_fin] at hs
          exact fun hlt => hs (decide_eq_true hlt)
        have hfm_le : npvRat ((l + h) / 2) (roundTripFlows r) 0 0 ≤ 0 := by
          by_contra hp
          push_neg at hp
          exact hnprod (mul_pos hfl hp)
        have hrm : r < (l + h) / 2 := by
          by_contra hge
          push_neg at hge
          have := rt_nonneg_of_le r ((l + h) / 2) hm1 hge
          have hlt : npvRat ((l + h) / 2) (roundTripFlows r) 0 0 < 0 :=
            lt_of_le_of_ne hfm_le hfm_ne
          linarith
        obtain ⟨v, hv⟩ := ih l ((l + h) / 2) hl1 hlr hrm (by linarith) (by linarith)
        refine ⟨v, ?_⟩
        rw [bisectPhase_succ, jadd_fin, jdiv_fin _ _ (by norm_num : (2:ℚ) ≠ 0), npvGo_fin _ _ _ _ hmne,
          if_neg hc, npvGo_fin _ _ _ _ hlne, if_neg hs]
        exact hv

/-- C8: IRR round-trip. For every rate r strictly inside the solver's bracket
(-0.99, 10), running calculateIRR on the synthetic cash-flow sequence
[-100, 0, 0, 100*(1+r)^3] (whose NPV vanishes exactly at discount rate r)
returns a finite value within the solver's tolerance (1e-7) of r. -/
theorem claim_C8_roundtrip (r : ℚ) (h1 : -99/100 < r) (h2 : r < 10) :
    ∃ v : ℚ, calculateIRR ((roundTripFlows r).map fin) = some (fin v)
      ∧ |v - r| < tolerance := by
  cases hnp : newtonPhase ((roundTripFlows r).map fin) maxIterations (fin (1/100)) with
  | some j =>
    obtain ⟨w, hw_eq, hw1, hw2, hnpv⟩ :=
      newton_some (roundTripFlows r) maxIterations (1/100) (by norm_num) (by norm_num)
        j hnp
    rw [npvRat_roundTrip] at hnpv
    refine ⟨w, ?_, root_close r w h1 h2 hw1 hw2 hnpv⟩
    rw [← hw_eq]
    simp only [calculateIRR, hnp]
  | none =>
    obtain ⟨v, hv⟩ := bisect_succeeds r h1 h2 99 (-99/100) 10 le_rfl h1 h2 le_rfl
      (by norm_num)
    obtain ⟨w, hw_eq, hw1, hw2, hnpv⟩ :=
      bisect_some (roundTripFlows r) 100 (-99/100) 10 (by norm_num) (by norm_num)
        (by norm_num) (by norm_num) v hv
    rw [npvRat_roundTrip] at hnpv
    refine ⟨w, ?_, root_close r w h1 h2 hw1 hw2 hnpv⟩
    rw [← hw_eq]
    simp only [calculateIRR, hnp]
    exact hv

theorem claim_C8_roundtrip_witness :
    (-99/100 : ℚ) < 1 ∧ (1 : ℚ) < 10 ∧
      ∃ v : ℚ, calculateIRR ((roundTripFlows 1).map fin) = some (fin v)
        ∧ |v - 1| < tolerance :=
  ⟨by norm_num, by norm_num, claim_C8_roundtrip 1 (by norm_num) (by norm_num)⟩
